import Mathlib

/-
Verification of the ledger-aggregation core of the Tryton account module
(src/account.py, src/common.py, src/period.py) against its specification.

Conventions of the shallow embedding:
* Stored records are Lean structures; the database is an explicit `Db` value
  holding the rows of every model, in storage order.
* Monetary Decimal amounts are modelled as integers (amounts in minimal
  currency subunits); currency rounding is an abstract parameter
  `round : Nat -> Int -> Int` from a currency id and a raw amount to a
  rounded amount, so that "where rounding is applied" stays observable.
* Dates are modelled as integers (day numbers).
* A failing operation returns `Except.error e`; the error carries no
  database, so a failed operation leaves the stored state unchanged.  A
  successful operation returns the updated database.
* SQL searches are modelled as filters over the stored rows in storage
  order; `ORDER BY key DESC LIMIT 1` is modelled by `pickBest`, which keeps
  the first stored row with the best key (SQL leaves ties between equal
  keys backend dependent; the model resolves them to the first stored row).
* `grouped_slice` chunking of id lists is a performance accommodation whose
  results are merged by disjoint union; the model queries in one batch.
* Record ids are positive in Tryton, so a Python truthiness test on an id
  taken from the context is modelled by `Option.isSome`.
-/

/-- Lifecycle state of an accounting period (src/period.py, field `state`):
open, close, locked.  `open` is a Lean keyword, hence `open'`. -/
inductive PState where
  | open'
  | close
  | locked
deriving DecidableEq, Repr

/-- Type of a period (src/period.py, field `type`): standard or adjustment. -/
inductive PType where
  | standard
  | adjustment
deriving DecidableEq, Repr

/-- Lifecycle state of a fiscal year.  Modelled from the spec: the FiscalYear
model (fiscalyear.py) is not under src/; per the spec (section 3) a fiscal
year has lifecycle state open -> closed. -/
inductive FYState where
  | open'
  | close
deriving DecidableEq, Repr

/-- Fiscal year row: company-scoped date range with lifecycle state
(spec section 3; used by src/account.py via `account.fiscalyear`). -/
structure FiscalYear where
  id : Nat
  company : Nat
  start_date : Int
  end_date : Int
  state : FYState
deriving DecidableEq, Repr

/-- Period row (src/period.py): belongs to a fiscal year, has a date range,
a type, a lifecycle state and an optional posting sequence. -/
structure Period where
  id : Nat
  fiscalyear : Nat
  start_date : Int
  end_date : Int
  type : PType
  state : PState
  post_move_sequence : Option Nat
deriving DecidableEq, Repr

/-- Account row (src/account.py): node of the chart of accounts with its
nested-interval pair `(left, right)`, a currency and an optional secondary
currency. -/
structure Account where
  id : Nat
  company : Nat
  left : Int
  right : Int
  currency : Nat
  second_currency : Option Nat
deriving DecidableEq, Repr

/-- Account move (external `account.move` model, read by src/period.py and
src/account.py): belongs to a period, has a date and a posted flag
(the source's `state == 'posted'`). -/
structure Move where
  id : Nat
  period : Nat
  date : Int
  posted : Bool
deriving DecidableEq, Repr

/-- Account move line (external `account.move.line` model, read-only for this
core): belongs to a move, references an account, carries the aggregated
monetary columns. -/
structure MoveLine where
  id : Nat
  move : Nat
  account : Nat
  debit : Int
  credit : Int
  amount_second_currency : Int
deriving DecidableEq, Repr

/-- Deferral row (src/account.py, AccountDeferral): snapshot keyed by
`(account, fiscalyear)` holding the figures carried across the fiscal-year
boundary. -/
structure Deferral where
  id : Nat
  account : Nat
  fiscalyear : Nat
  debit : Int
  credit : Int
  amount_second_currency : Int
  line_count : Nat
deriving DecidableEq, Repr

/-- Journal-period join record (external `account.journal.period` model,
closed in cascade by Period.close in src/period.py). -/
structure JournalPeriod where
  id : Nat
  period : Nat
  state : PState
deriving DecidableEq, Repr

/-- Database: the stored rows of every model, in storage order. -/
structure Db where
  fiscalyears : List FiscalYear
  periods : List Period
  accounts : List Account
  moves : List Move
  lines : List MoveLine
  deferrals : List Deferral
  journalPeriods : List JournalPeriod
deriving DecidableEq, Repr

/-- Ambient transaction context (trytond's Transaction().context): every key
that the embedded functions read.  `end_date` models the context key probed
by `_GeneralLedgerAccount.get_account` (src/account.py:1946); the
general-ledger context defines `from_date`/`to_date` but never `end_date`,
so that key is `none` in every context built by the shipped views. -/
structure Ctx where
  company : Option Nat := none
  fiscalyear : Option Nat := none
  periods : Option (List Nat) := none
  date : Option Int := none
  from_date : Option Int := none
  to_date : Option Int := none
  end_date : Option Int := none
  start_period : Option Nat := none
  end_period : Option Nat := none
  posted : Bool := false
  cumulate : Bool := false
deriving DecidableEq, Repr

/-- Record lookup by id (ORM browse of one id): first stored row with the id. -/
def findFY (db : Db) (i : Nat) : Option FiscalYear :=
  db.fiscalyears.find? (fun f => f.id == i)

/-- Record lookup by id for periods. -/
def findPeriod (db : Db) (i : Nat) : Option Period :=
  db.periods.find? (fun p => p.id == i)

/-- Record lookup by id for accounts. -/
def findAccount (db : Db) (i : Nat) : Option Account :=
  db.accounts.find? (fun a => a.id == i)

/-- Record lookup by id for moves. -/
def findMove (db : Db) (i : Nat) : Option Move :=
  db.moves.find? (fun m => m.id == i)

/-- ORM browse of an id list (rows in the order of the ids; missing ids are
dropped, the embedded theorems assume well-formed references). -/
def browsePeriods (db : Db) (ids : List Nat) : List Period :=
  ids.filterMap (findPeriod db)

/-- Browse for fiscal years, used for `FiscalYear.browse(fiscalyear_ids)`. -/
def fyBrowse (db : Db) (ids : List Nat) : List FiscalYear :=
  ids.filterMap (findFY db)

/-- Model of `search(..., order=[(key, 'DESC')], limit=1)` (and, with the
comparison flipped, `ASC`): fold keeping the first stored row with the best
key. -/
def pickBest {β : Type} (better : β → β → Bool) (l : List β) : Option β :=
  l.foldl (fun acc x =>
    match acc with
    | none => some x
    | some y => if better x y then some x else some y) none

/-- Errors raised by the period operations (src/period.py error messages). -/
inductive PeriodError where
  | noPeriodDate
  | modifyDelPeriodMoves (period : Nat)
  | openPeriodClosedFiscalyear (period : Nat)
  | changePostMoveSequence (period : Nat)
  | closePeriodNonPostedMove (period : Nat) (move : Nat)
deriving DecidableEq, Repr

/-- Error raised by AccountDeferral.write (src/account.py:1763). -/
inductive DeferralError where
  | writeDeferral
deriving DecidableEq, Repr

/-- Workflow transitions registered for periods (src/period.py:78,
Period.__setup__): open -> close, close -> locked, close -> open. -/
def periodTransitions : List (PState × PState) :=
  [(PState.open', PState.close), (PState.close, PState.locked),
    (PState.close, PState.open')]

/-- Check of the Workflow.transition decorator (trytond framework): a record
takes part in a transition only when the pair (current state, target state)
is registered; other records of the call are skipped, their state is left
unchanged (the spec lists no wrong-state error kind in section 7, matching
this filtering behaviour). -/
def transitionAllowed (s t : PState) : Bool :=
  decide ((s, t) ∈ periodTransitions)

/-- Payload entry of a Period.write call.  A payload models a Python dict,
so the embedded theorems feed lists whose keys are pairwise distinct; dict
lookup is modelled by the first matching entry. -/
inductive PAssign where
  | start_date (d : Int)
  | end_date (d : Int)
  | fiscalyear (f : Nat)
  | state (s : PState)
  | post_move_sequence (s : Option Nat)
deriving DecidableEq, Repr

/-- Keys checked by the structural-field guard of Period.write
(src/period.py:265): start_date, end_date, fiscalyear. -/
def structuralKey : PAssign → Bool
  | PAssign.start_date _ => true
  | PAssign.end_date _ => true
  | PAssign.fiscalyear _ => true
  | _ => false

/-- Filter `modified` of Period.write (src/period.py:266): does the written
value differ from the period's current value for this key? -/
def assignModified (a : PAssign) (p : Period) : Bool :=
  match a with
  | PAssign.start_date d => !(p.start_date == d)
  | PAssign.end_date d => !(p.end_date == d)
  | PAssign.fiscalyear f => !(p.fiscalyear == f)
  | _ => false

/-- Dict lookup `values.get('state')` on the payload. -/
def valuesState (vals : List PAssign) : Option PState :=
  vals.findSome? (fun a =>
    match a with
    | PAssign.state s => some s
    | _ => none)

/-- Dict lookup `values.get('post_move_sequence')` on the payload. -/
def valuesPMS (vals : List PAssign) : Option (Option Nat) :=
  vals.findSome? (fun a =>
    match a with
    | PAssign.post_move_sequence s => some s
    | _ => none)

/-- Application of one payload entry to a period record (the generic
ModelSQL write of the framework, after the guards of Period.write passed). -/
def applyAssign (p : Period) (a : PAssign) : Period :=
  match a with
  | PAssign.start_date d => { p with start_date := d }
  | PAssign.end_date d => { p with end_date := d }
  | PAssign.fiscalyear f => { p with fiscalyear := f }
  | PAssign.state s => { p with state := s }
  | PAssign.post_move_sequence s => { p with post_move_sequence := s }

/-- Application of a whole payload to a period record. -/
def applyValues (p : Period) (vals : List PAssign) : Period :=
  vals.foldl applyAssign p

/-- Structural-field guard of Period.write (src/period.py:263-272): the
source loop breaks after the first of start_date / end_date / fiscalyear in
the payload and applies Period._check (src/period.py:206) only to the
periods whose value for that key actually changes; the first stored move
referencing one of those periods raises modify_del_period_moves. -/
def structGuard (db : Db) (periods : List Period) (vals : List PAssign) :
    Option PeriodError :=
  match vals.find? structuralKey with
  | some a =>
    let cids := (periods.filter (fun p => assignModified a p)).map (fun p => p.id)
    match db.moves.find? (fun m => cids.contains m.period) with
    | some m => some (PeriodError.modifyDelPeriodMoves m.period)
    | none => none
  | none => none

/-- State guard of Period.write (src/period.py:273-279): writing state open
rejects a period whose fiscal year is not open (a dangling fiscal-year
reference also rejects, the source would fail on the attribute access). -/
def stateGuard (db : Db) (periods : List Period) (vals : List PAssign) :
    Option PeriodError :=
  if valuesState vals = some PState.open' then
    match periods.find? (fun p =>
        !((findFY db p.fiscalyear).map (fun f => f.state) == some FYState.open')) with
    | some p => some (PeriodError.openPeriodClosedFiscalyear p.id)
    | none => none
  else none

/-- Sequence guard of Period.write (src/period.py:280-290): writing a post
move sequence rejects a period that already has a different sequence and
posted moves. -/
def pmsGuard (db : Db) (periods : List Period) (vals : List PAssign) :
    Option PeriodError :=
  match valuesPMS vals with
  | some (some s) =>
    match periods.find? (fun p =>
        p.post_move_sequence.isSome && !(p.post_move_sequence == some s)
          && db.moves.any (fun m => m.period == p.id && m.posted)) with
    | some p => some (PeriodError.changePostMoveSequence p.id)
    | none => none
  | _ => none

/-- Period.write (src/period.py:258) for one (records, values) pair: the
three guards in source order, then the payload applied to every selected
period by the framework's generic write. -/
def period_write (db : Db) (ids : List Nat) (vals : List PAssign) :
    Except PeriodError Db :=
  let periods := browsePeriods db ids
  match structGuard db periods vals with
  | some e => Except.error e
  | none =>
    match stateGuard db periods vals with
    | some e => Except.error e
    | none =>
      match pmsGuard db periods vals with
      | some e => Except.error e
      | none =>
        Except.ok { db with periods := db.periods.map (fun p =>
          if p.id ∈ ids then applyValues p vals else p) }

/-- Period.close (src/period.py:299).  The Workflow.transition('close')
wrapper keeps the selected periods whose state allows the open -> close
transition; the body locks the move and journal-period tables, searches the
first non-posted move in those periods and raises
close_period_non_posted_move naming its period and the move; otherwise the
matching journal-period records are closed in cascade (JournalPeriod.close
is not under src/ and is modelled from the spec, section 4.5: closing a set
of periods also closes the corresponding journal-period join records) and
the wrapper writes state close on the kept periods. -/
def period_close (db : Db) (ids : List Nat) : Except PeriodError Db :=
  let filtered := (browsePeriods db ids).filter
    (fun p => transitionAllowed p.state PState.close)
  let fids := filtered.map (fun p => p.id)
  match db.moves.find? (fun m => fids.contains m.period && !m.posted) with
  | some m => Except.error (PeriodError.closePeriodNonPostedMove m.period m.id)
  | none =>
    let db1 := { db with journalPeriods := db.journalPeriods.map (fun jp =>
      if fids.contains jp.period then { jp with state := PState.close } else jp) }
    period_write db1 fids [PAssign.state PState.close]

/-- Period.reopen (src/period.py:329): the Workflow.transition('open')
wrapper keeps the periods whose state allows close -> open, the body is
empty, and the wrapper's state write goes through Period.write, whose guard
rejects reopening a period of a non-open fiscal year. -/
def period_reopen (db : Db) (ids : List Nat) : Except PeriodError Db :=
  let filtered := (browsePeriods db ids).filter
    (fun p => transitionAllowed p.state PState.open')
  period_write db (filtered.map (fun p => p.id)) [PAssign.state PState.open']

/-- Period.lock (src/period.py:336): the Workflow.transition('locked')
wrapper keeps the periods whose state allows close -> locked and writes
state locked on them; the body is empty. -/
def period_lock (db : Db) (ids : List Nat) : Except PeriodError Db :=
  let filtered := (browsePeriods db ids).filter
    (fun p => transitionAllowed p.state PState.locked)
  period_write db (filtered.map (fun p => p.id)) [PAssign.state PState.locked]

/-- Company of a period through its fiscal year (domain clause
`fiscalyear.company` of Period.find). -/
def fyCompany (db : Db) (p : Period) : Option Nat :=
  (findFY db p.fiscalyear).map (fun f => f.company)

/-- Period.find (src/period.py:174): search the periods of the company
whose date range contains the date, of type standard, restricted to state
open when test_state is set; order start_date DESC limit 1.  When nothing
matches, raise no_period_date if exception is set, else return None.  The
source defaults the date to today; the model takes the date explicitly. -/
def period_find (db : Db) (company_id : Nat) (date : Int)
    (exception : Bool) (test_state : Bool) : Except PeriodError (Option Nat) :=
  let found := db.periods.filter (fun p =>
    decide (p.start_date ≤ date) && decide (date ≤ p.end_date)
      && fyCompany db p == some company_id && p.type == PType.standard
      && (!test_state || p.state == PState.open'))
  match pickBest (fun p q => decide (p.start_date > q.start_date)) found with
  | some p => Except.ok (some p.id)
  | none =>
    if exception then Except.error PeriodError.noPeriodDate else Except.ok none

/-- Payload entry of an AccountDeferral.write call. -/
inductive DAssign where
  | debit (v : Int)
  | credit (v : Int)
  | amount_second_currency (v : Int)
  | line_count (n : Nat)
  | account (a : Nat)
  | fiscalyear (f : Nat)
deriving DecidableEq, Repr

/-- AccountDeferral.write (src/account.py:1763): raises AccessError
unconditionally for every selection and every payload, so no stored
deferral is ever modified. -/
def deferral_write (_db : Db) (_ids : List Nat) (_vals : List DAssign) :
    Except DeferralError Db :=
  Except.error DeferralError.writeDeferral

/-- Field names accepted by Account.get_credit_debit (src/account.py:1067);
any other requested name raises ValueError in the source, which the
inductive type makes unrepresentable. -/
inductive CDName where
  | credit
  | debit
  | amount_second_currency
  | line_count
deriving DecidableEq, Repr

/-- Modelled from the spec: MoveLine.query_get (account/move.py, in this
repository but not under src/) resolves the ambient context to a move-line
filter plus the list of in-scope fiscal-year ids.  Per spec section 4.2 the
three addressing modes are checked in priority order: explicit period ids,
explicit (from_date, to_date) date range, a single fiscal year; when none
is active all open fiscal years are in scope; per section 6 the filter also
restricts to posted moves when the context requests it.  The date-range
scope takes the fiscal years overlapping the range, mirroring
ActivePeriodMixin._active_dates (src/common.py:88). -/
def query_get (db : Db) (ctx : Ctx) : (MoveLine → Bool) × List Nat :=
  let postedOk : MoveLine → Bool := fun l =>
    !ctx.posted || (((findMove db l.move).map (fun m => m.posted)).getD false)
  let lineFY : MoveLine → Option Nat := fun l =>
    (findMove db l.move).bind (fun m => (findPeriod db m.period).map (fun p => p.fiscalyear))
  match ctx.periods with
  | some pids =>
    (fun l => (((findMove db l.move).map (fun m => pids.contains m.period)).getD false)
        && postedOk l,
      (pids.filterMap (fun i => (findPeriod db i).map (fun p => p.fiscalyear))).dedup)
  | none =>
    if ctx.from_date.isSome || ctx.to_date.isSome then
      (fun l => (((findMove db l.move).map (fun m =>
            (match ctx.from_date with
             | some d => decide (d ≤ m.date)
             | none => true)
            && (match ctx.to_date with
             | some d => decide (m.date ≤ d)
             | none => true))).getD false) && postedOk l,
        (db.fiscalyears.filter (fun f =>
          (match ctx.from_date with
           | some d => decide (d ≤ f.end_date)
           | none => true)
          && (match ctx.to_date with
           | some d => decide (f.start_date ≤ d)
           | none => true))).map (fun f => f.id))
    else
      match ctx.fiscalyear with
      | some fy =>
        (fun l => ((lineFY l).map (fun i => i == fy)).getD false && postedOk l, [fy])
      | none =>
        let openFys := (db.fiscalyears.filter
          (fun f => f.state == FYState.open')).map (fun f => f.id)
        (fun l => ((lineFY l).map (fun i => openFys.contains i)).getD false
            && postedOk l,
          openFys)

/-- Aggregated column of a move line for one requested name; line_count is
Count(*), one per joined row (src/account.py:1077). -/
def lineColumn (l : MoveLine) : CDName → Int
  | CDName.credit => l.credit
  | CDName.debit => l.debit
  | CDName.amount_second_currency => l.amount_second_currency
  | CDName.line_count => 1

/-- Sum of one aggregated column over the move lines of one account id that
pass the resolved window filter. -/
def lineQuerySum (db : Db) (lq : MoveLine → Bool) (aid : Nat)
    (f : MoveLine → Int) : Int :=
  ((db.lines.filter (fun l => l.account == aid && lq l)).map f).sum

/-- SQL aggregate of Account.get_credit_debit (src/account.py:1082): join of
the account table (rows with the requested id) with its own move lines,
summed per requested name.  The outer sum over the account rows mirrors the
SQL join; with unique stored ids it has a single summand. -/
def cdSQL (db : Db) (lq : MoveLine → Bool) (aid : Nat) (name : CDName) : Int :=
  ((db.accounts.filter (fun c => c.id == aid)).map
    (fun c => lineQuerySum db lq c.id (fun l => lineColumn l name))).sum

/-- Rounding step of Account.get_credit_debit (src/account.py:1098): credit
and debit round with the account's currency, amount_second_currency with
the secondary currency when set (else the primary one), line_count is not
rounded. -/
def roundName (round : Nat → Int → Int) (a : Account) (name : CDName)
    (v : Int) : Int :=
  match name with
  | CDName.line_count => v
  | CDName.amount_second_currency =>
    round (a.second_currency.getD a.currency) v
  | _ => round a.currency v

/-- Pointwise update of a result dictionary, modelled as a function from
(name, account id) to the aggregated value. -/
def upd {α : Type} [DecidableEq α] (v : α → Nat → Int) (n : α) (i : Nat)
    (x : Int) : α → Nat → Int :=
  fun n' i' => if n' = n ∧ i' = i then x else v n' i'

/-- Raw (pre-cumulation) result of Account.get_credit_debit
(src/account.py:1064-1108): per requested name and account, the summed own
lines of the account under the resolved window filter, then the per-account
rounding loop of the source (outer loop accounts, inner loop names). -/
def creditDebitRaw (round : Nat → Int → Int) (db : Db) (ctx : Ctx)
    (accounts : List Account) (names : List CDName) : CDName → Nat → Int :=
  let lq := (query_get db ctx).fst
  let ids := accounts.map (fun a => a.id)
  let base : CDName → Nat → Int := fun n i =>
    if n ∈ names ∧ i ∈ ids then cdSQL db lq i n else 0
  accounts.foldl (fun v a =>
    names.foldl (fun v n => upd v n a.id (roundName round a n (v n a.id))) v) base

/-- AccountDeferral.get_balance (src/account.py:1709): for a deferral row,
sum debit - credit over the deferral rows of the same fiscal year whose
account lies in the nested interval of the deferral's account. -/
def deferralBalance (db : Db) (d : Deferral) : Int :=
  match findAccount db d.account with
  | none => 0
  | some a =>
    ((db.accounts.filter (fun c =>
        decide (a.left ≤ c.left) && decide (c.right ≤ a.right))).map (fun c =>
      ((db.deferrals.filter (fun d2 =>
          d2.account == c.id && d2.fiscalyear == d.fiscalyear)).map
        (fun d2 => d2.debit - d2.credit)).sum)).sum

/-- Stored figure of a deferral row for one requested name
(`getattr(deferral, name)` in Account._cumulate, src/account.py:1168). -/
def deferralField (d : Deferral) : CDName → Int
  | CDName.credit => d.credit
  | CDName.debit => d.debit
  | CDName.amount_second_currency => d.amount_second_currency
  | CDName.line_count => Int.ofNat d.line_count

/-- Deferral row for (account, fiscal year) as resolved by the id2deferral
dict of Account._cumulate (src/account.py:1154): iteration in storage
order, a later row with the same account overwrites an earlier one, hence
the last matching stored row. -/
def findDeferral (db : Db) (aid fid : Nat) : Option Deferral :=
  (db.deferrals.filter (fun d => d.account == aid && d.fiscalyear == fid)).getLast?

/-- Selection of the fiscal year the source calls youngest_fiscalyear
(src/account.py:1133): the loop keeps the in-scope fiscal year with the
smallest start date (despite its name, the earliest one), first stored row
winning ties. -/
def youngestFY (fys : List FiscalYear) : Option FiscalYear :=
  pickBest (fun f g => decide (f.start_date < g.start_date)) fys

/-- Preceding fiscal year of Account._cumulate (src/account.py:1142): the
fiscal year of the same company with the latest end date strictly before
the given fiscal year's start date (order end_date DESC limit 1). -/
def precedingFY (db : Db) (y : FiscalYear) : Option FiscalYear :=
  pickBest (fun f g => decide (f.end_date > g.end_date))
    (db.fiscalyears.filter (fun f =>
      decide (f.end_date < y.start_date) && f.company == y.company))

/-- Context shift of the recursive branch of Account._cumulate
(src/account.py:1170): fiscalyear set to the predecessor, date, periods,
from_date and to_date cleared. -/
def clearedCtx (ctx : Ctx) (fid : Nat) : Ctx :=
  { ctx with
    fiscalyear := some fid
    date := none
    periods := none
    from_date := none
    to_date := none }

/-- Account._cumulate (src/account.py:1122), generic over the result keys
(CDName for get_credit_debit, Unit for get_balance), the deferral getter
and the recursive aggregation function (which may run out of fuel, hence
Option).  The youngest (earliest-start) in-scope fiscal year determines the
preceding fiscal year; with no predecessor the values pass through; a
closed predecessor contributes the deferral figures of each account that
has a deferral row (accounts without one are left unchanged); otherwise the
aggregation function is re-invoked under the shifted context and its result
is added (source loop order: names outer, accounts inner). -/
def cumulateF {α : Type} [DecidableEq α] (db : Db) (ctx : Ctx)
    (fys : List FiscalYear) (accounts : List Account) (names : List α)
    (values : α → Nat → Int) (defGet : Deferral → α → Int)
    (func : Ctx → List Account → List α → Option (α → Nat → Int)) :
    Option (α → Nat → Int) :=
  match youngestFY fys with
  | none => some values
  | some y =>
    match precedingFY db y with
    | none => some values
    | some pred =>
      if pred.state = FYState.close then
        some (accounts.foldl (fun v a =>
          match findDeferral db a.id pred.id with
          | some d => names.foldl (fun v n => upd v n a.id (v n a.id + defGet d n)) v
          | none => v) values)
      else
        (func (clearedCtx ctx pred.id) accounts names).map (fun prev =>
          names.foldl (fun v n =>
            accounts.foldl (fun v a => upd v n a.id (v n a.id + prev n a.id)) v)
            values)

/-- Names to cumulate (src/account.py:1110): all requested names when the
context sets the cumulate flag, else only amount_second_currency when it is
requested. -/
def cumulateNames (ctx : Ctx) (names : List CDName) : List CDName :=
  if ctx.cumulate then names
  else if CDName.amount_second_currency ∈ names then
    [CDName.amount_second_currency]
  else []

/-- Account.get_credit_debit (src/account.py:1052), fuel-indexed: the fuel
bounds the recursion depth of the cross-fiscal-year cumulation (the source
recursion has no explicit bound; the termination theorem shows the result
is independent of any sufficiently large fuel).  none means the fuel ran out. -/
def get_credit_debit (round : Nat → Int → Int) (db : Db) :
    Nat → Ctx → List Account → List CDName → Option (CDName → Nat → Int)
  | 0, _, _, _ => none
  | fuel + 1, ctx, accounts, names =>
    let result := creditDebitRaw round db ctx accounts names
    let cnames := cumulateNames ctx names
    if cnames.isEmpty then some result
    else
      cumulateF db ctx (fyBrowse db (query_get db ctx).snd) accounts cnames
        result deferralField
        (fun ctx' accounts' names' => get_credit_debit round db fuel ctx' accounts' names')

/-- SQL aggregate of Account.get_balance (src/account.py:1028): join of the
account table (rows with the requested id) with the accounts inside its
nested interval and their move lines, summing debit - credit.  The outer
sum over the requested-account rows mirrors the SQL join; with unique
stored ids it has a single summand. -/
def balanceSQL (db : Db) (lq : MoveLine → Bool) (aid : Nat) : Int :=
  ((db.accounts.filter (fun ar => ar.id == aid)).map (fun ar =>
    ((db.accounts.filter (fun c =>
        decide (ar.left ≤ c.left) && decide (c.right ≤ ar.right))).map (fun c =>
      lineQuerySum db lq c.id (fun l => l.debit - l.credit))).sum)).sum

/-- Raw (pre-cumulation) balances of Account.get_balance
(src/account.py:1024-1043): descendant-range sum per requested account id,
then the per-account rounding loop with the account's currency. -/
def balanceRaw (round : Nat → Int → Int) (db : Db) (ctx : Ctx)
    (accounts : List Account) : Nat → Int :=
  let lq := (query_get db ctx).fst
  let ids := accounts.map (fun a => a.id)
  let base : Nat → Int := fun i => if i ∈ ids then balanceSQL db lq i else 0
  accounts.foldl (fun v a =>
    (fun i' => if i' = a.id then round a.currency (v a.id) else v i')) base

/-- Account.get_balance (src/account.py:1013), fuel-indexed like
get_credit_debit.  The balance is always cumulated (no flag): _cumulate is
applied with the single name balance, whose deferral figure is the
deferral's balance (AccountDeferral.get_balance) and whose recursive
function wraps get_balance itself. -/
def get_balance (round : Nat → Int → Int) (db : Db) :
    Nat → Ctx → List Account → Option (Nat → Int)
  | 0, _, _ => none
  | fuel + 1, ctx, accounts =>
    let balances : Unit → Nat → Int := fun _ => balanceRaw round db ctx accounts
    (cumulateF db ctx (fyBrowse db (query_get db ctx).snd) accounts [()]
        balances (fun d _ => deferralBalance db d)
        (fun ctx' accounts' _ =>
          (get_balance round db fuel ctx' accounts').map (fun b _ => b))).map
      (fun v => v ())

/-- Python str.startswith on field names, made kernel-computable through the
character lists. -/
def nameStarts (s pre : String) : Bool :=
  pre.toList.isPrefixOf s.toList

/-- Default boundary search of _GeneralLedgerAccount.get_period_ids
(src/account.py:1897): the standard period of the context fiscal year with
the latest start date (order start_date DESC limit 1). -/
def latestStandardPeriod (db : Db) (fy : Option Nat) : Option Period :=
  pickBest (fun p q => decide (p.start_date > q.start_date))
    (db.periods.filter (fun p => some p.fiscalyear == fy && p.type == PType.standard))

/-- _GeneralLedgerAccount.get_period_ids (src/account.py:1881): resolve the
period window of a start_X / end_X field.  The boundary period is the
context's start_period for start_ names; for end_ names it is the context's
end_period, defaulting to the latest standard period of the context fiscal
year.  With a boundary, the window searches the periods of the context
fiscal year ending at or before the boundary's start date (start_ names) or
ending at or before and starting strictly before the boundary's end date
(end_ names); a single-day boundary is appended to the search result; for
end_ names the boundary period id is always appended.  A name with neither
prefix is dead code in the source (the local period_ids would be unbound);
the model returns the empty window there. -/
def get_period_ids (db : Db) (ctx : Ctx) (name : String) : List Nat :=
  let boundary : Option Period :=
    if nameStarts name "start_" then
      match ctx.start_period with
      | some i => findPeriod db i
      | none => none
    else if nameStarts name "end_" then
      match ctx.end_period with
      | some i => findPeriod db i
      | none => latestStandardPeriod db ctx.fiscalyear
    else none
  match boundary with
  | none => []
  | some period =>
    let dateOk : Period → Bool := fun q =>
      if nameStarts name "start_" then decide (q.end_date ≤ period.start_date)
      else decide (q.end_date ≤ period.end_date)
        && decide (q.start_date < period.end_date)
    let found := db.periods.filter (fun q =>
      some q.fiscalyear == ctx.fiscalyear && dateOk q)
    let found := if period.start_date == period.end_date then
        found ++ [period]
      else found
    let ids := if found.isEmpty then [] else found.map (fun q => q.id)
    if nameStarts name "end_" then ids ++ [period.id] else ids

/-- _GeneralLedgerAccount.get_dates (src/account.py:1926): the date window
of a start_X field is (None, context from_date minus one day), of an end_X
field (None, context to_date). -/
def get_dates (ctx : Ctx) (name : String) : Option Int × Option Int :=
  if nameStarts name "start_" then (none, ctx.from_date.map (fun d => d - 1))
  else if nameStarts name "end_" then (none, ctx.to_date)
  else (none, none)

/-- Window selection of _GeneralLedgerAccount.get_account
(src/account.py:1938): the (periods, from_date, to_date) triple pushed into
the context before reading the account figures.  With a start or end period
in the context the period window of get_period_ids is used; else, when the
context has a from_date (the source probes the never-set end_date key as
the second disjunct, src/account.py:1946), the date window of get_dates;
else a start_ name gets the empty period window and any other name leaves
the context unrestricted. -/
def get_account_window (db : Db) (ctx : Ctx) (name : String) :
    Option (List Nat) × Option Int × Option Int :=
  if ctx.start_period.isSome || ctx.end_period.isSome then
    (some (get_period_ids db ctx name), none, none)
  else if ctx.from_date.isSome || ctx.end_date.isSome then
    let d := get_dates ctx name
    (none, d.fst, d.snd)
  else if nameStarts name "start_" then (some [], none, none)
  else (none, none, none)

/-! Generic lemmas about the list combinators of the model. -/

/-- Lookup by key over a list with pairwise distinct keys finds the member. -/
theorem find_key_eq {β : Type} (key : β → Nat) (l : List β) (b : β)
    (hnd : (l.map key).Nodup) (hb : b ∈ l) :
    l.find? (fun x => key x == key b) = some b := by
  induction l with
  | nil => cases hb
  | cons x t ih =>
    rw [List.map_cons, List.nodup_cons] at hnd
    rcases List.mem_cons.mp hb with h | h
    · subst h
      simp [List.find?]
    · have hne : key x ≠ key b := by
        intro he
        exact hnd.1 (he ▸ List.mem_map_of_mem key h)
      have : (key x == key b) = false := by
        simpa using hne
      simp [List.find?, this]
      exact ih hnd.2 h

/-- Filter by key over a list with pairwise distinct keys keeps exactly the
member. -/
theorem filter_key_eq {β : Type} (key : β → Nat) (l : List β) (b : β)
    (hnd : (l.map key).Nodup) (hb : b ∈ l) :
    l.filter (fun x => key x == key b) = [b] := by
  induction l with
  | nil => cases hb
  | cons x t ih =>
    rw [List.map_cons, List.nodup_cons] at hnd
    rcases List.mem_cons.mp hb with h | h
    · subst h
      have : t.filter (fun y => key y == key b) = [] := by
        rw [List.filter_eq_nil_iff]
        intro a ha
        simp only [beq_iff_eq]
        intro he
        exact hnd.1 (he ▸ List.mem_map_of_mem key ha)
      simp [List.filter, this]
    · have hne : key x ≠ key b := by
        intro he
        exact hnd.1 (he ▸ List.mem_map_of_mem key h)
      have hx : (key x == key b) = false := by simpa using hne
      simp [List.filter, hx]
      exact ih hnd.2 h

/-- Splitting of a list with pairwise distinct keys at a member: the other
elements all carry a different key. -/
theorem nodup_key_split {β : Type} (key : β → Nat) (l : List β) (b0 : β)
    (hnd : (l.map key).Nodup) (hb : b0 ∈ l) :
    ∃ l1 l2, l = l1 ++ b0 :: l2 ∧ (∀ b ∈ l1, key b ≠ key b0)
      ∧ (∀ b ∈ l2, key b ≠ key b0) := by
  obtain ⟨l1, l2, rfl⟩ := List.append_of_mem hb
  refine ⟨l1, l2, rfl, ?_, ?_⟩
  · intro b hb1 he
    rw [List.map_append, List.nodup_append] at hnd
    have h1 : key b0 ∈ List.map key l1 := he ▸ List.mem_map_of_mem key hb1
    have h2 : key b0 ∈ List.map key (b0 :: l2) :=
      List.mem_map_of_mem key (List.mem_cons_self b0 l2)
    exact hnd.2.2 h1 h2
  · intro b hb2 he
    rw [List.map_append, List.map_cons, List.nodup_append] at hnd
    exact (List.nodup_cons.mp hnd.2.1).1 (he ▸ List.mem_map_of_mem key hb2)

/-- Point evaluation of a fold whose steps all preserve the point. -/
theorem foldl_point_preserve {β γ : Type} (l : List β) (step : γ → β → γ)
    (v0 : γ) (point : γ → Int)
    (h : ∀ v b, b ∈ l → point (step v b) = point v) :
    point (l.foldl step v0) = point v0 := by
  induction l generalizing v0 with
  | nil => rfl
  | cons x t ih =>
    rw [List.foldl_cons, ih _ (fun v b hb => h v b (List.mem_cons_of_mem x hb))]
    exact h v0 x (List.mem_cons_self x t)

/-- Point evaluation of a fold in which exactly one step touches the point,
through the map h. -/
theorem foldl_point_single {β γ : Type} (l1 l2 : List β) (b0 : β)
    (step : γ → β → γ) (v0 : γ) (point : γ → Int) (h : Int → Int)
    (hpres : ∀ v b, b ∈ l1 ∨ b ∈ l2 → point (step v b) = point v)
    (hstep : ∀ v, point (step v b0) = h (point v)) :
    point ((l1 ++ b0 :: l2).foldl step v0) = h (point v0) := by
  rw [List.foldl_append, List.foldl_cons]
  rw [foldl_point_preserve l2 step _ point (fun v b hb => hpres v b (Or.inr hb))]
  rw [hstep]
  rw [foldl_point_preserve l1 step v0 point (fun v b hb => hpres v b (Or.inl hb))]

/-- Membership of a pickBest result. -/
theorem pickBest_fold_mem {β : Type} (better : β → β → Bool) :
    ∀ (l : List β) (acc : Option β) (b : β),
      l.foldl (fun acc x =>
        match acc with
        | none => some x
        | some y => if better x y then some x else some y) acc = some b →
      b ∈ l ∨ acc = some b := by
  intro l
  induction l with
  | nil => intro acc b h; exact Or.inr h
  | cons x t ih =>
    intro acc b h
    rw [List.foldl_cons] at h
    rcases ih _ b h with h' | h'
    · exact Or.inl (List.mem_cons_of_mem x h')
    · match acc with
      | none =>
        simp only [] at h'
        exact Or.inl (List.mem_cons.mpr (Or.inl (Option.some.inj h').symm))
      | some y =>
        by_cases hb : better x y = true
        · simp only [hb, if_true] at h'
          exact Or.inl (List.mem_cons.mpr (Or.inl (Option.some.inj h').symm))
        · simp only [hb, if_false] at h'
          exact Or.inr h'

/-- Simple membership corollary for pickBest. -/
theorem pickBest_mem {β : Type} (better : β → β → Bool) (l : List β) (b : β)
    (h : pickBest better l = some b) : b ∈ l := by
  rcases pickBest_fold_mem better l none b h with h' | h'
  · exact h'
  · cases h'

/-- pickBest of a nonempty list is some. -/
theorem pickBest_fold_isSome {β : Type} (better : β → β → Bool) :
    ∀ (l : List β) (acc : Option β), (acc.isSome = true ∨ l ≠ []) →
      (l.foldl (fun acc x =>
        match acc with
        | none => some x
        | some y => if better x y then some x else some y) acc).isSome = true := by
  intro l
  induction l with
  | nil =>
    intro acc h
    rcases h with h | h
    · exact h
    · exact absurd rfl h
  | cons x t ih =>
    intro acc _
    rw [List.foldl_cons]
    apply ih
    left
    match acc with
    | none => rfl
    | some y =>
      by_cases hb : better x y = true <;> simp [hb]

/-- Maximality of pickBest under a strictly-greater comparison on an integer
key: every element's key is at most the result's key. -/
theorem pickBest_fold_max {β : Type} (key : β → Int) :
    ∀ (l : List β) (acc : Option β) (b : β),
      l.foldl (fun acc x =>
        match acc with
        | none => some x
        | some y => if decide (key x > key y) then some x else some y) acc = some b →
      (∀ x ∈ l, key x ≤ key b) ∧ (∀ a, acc = some a → key a ≤ key b) := by
  intro l
  induction l with
  | nil =>
    intro acc b h
    rw [List.foldl_nil] at h
    refine ⟨fun x hx => absurd hx (List.not_mem_nil x), fun a ha => ?_⟩
    rw [h] at ha
    exact le_of_eq (congrArg key (Option.some.inj ha)).symm
  | cons x t ih =>
    intro acc b h
    rw [List.foldl_cons] at h
    obtain ⟨h1, h2⟩ := ih _ b h
    have hx : key x ≤ key b := by
      match acc with
      | none => exact h2 x rfl
      | some y =>
        by_cases hg : decide (key x > key y) = true
        · simp only [hg, if_true] at h
          exact h2 x (by simp [hg])
        · have : key x ≤ key y := by
            have := of_decide_eq_false (Bool.not_eq_true _ ▸ hg)
            omega
          exact le_trans this (h2 y (by simp [hg]))
    refine ⟨fun z hz => ?_, fun a ha => ?_⟩
    · rcases List.mem_cons.mp hz with h' | h'
      · exact h' ▸ hx
      · exact h1 z h'
    · match acc, ha with
      | some y, rfl =>
        by_cases hg : decide (key x > key y) = true
        · have := of_decide_eq_true hg
          exact le_trans (le_of_lt this) hx
        · exact h2 y (by simp [hg])

/-- Minimality of pickBest under a strictly-smaller comparison on an integer
key: the result's key is at most every element's key. -/
theorem pickBest_fold_min {β : Type} (key : β → Int) :
    ∀ (l : List β) (acc : Option β) (b : β),
      l.foldl (fun acc x =>
        match acc with
        | none => some x
        | some y => if decide (key x < key y) then some x else some y) acc = some b →
      (∀ x ∈ l, key b ≤ key x) ∧ (∀ a, acc = some a → key b ≤ key a) := by
  intro l
  induction l with
  | nil =>
    intro acc b h
    rw [List.foldl_nil] at h
    refine ⟨fun x hx => absurd hx (List.not_mem_nil x), fun a ha => ?_⟩
    rw [h] at ha
    exact le_of_eq (congrArg key (Option.some.inj ha))
  | cons x t ih =>
    intro acc b h
    rw [List.foldl_cons] at h
    obtain ⟨h1, h2⟩ := ih _ b h
    have hx : key b ≤ key x := by
      match acc with
      | none => exact h2 x rfl
      | some y =>
        by_cases hg : decide (key x < key y) = true
        · exact h2 x (by simp [hg])
        · have hyx : key y ≤ key x := by
            have := of_decide_eq_false (Bool.not_eq_true _ ▸ hg)
            omega
          exact le_trans (h2 y (by simp [hg])) hyx
    refine ⟨fun z hz => ?_, fun a ha => ?_⟩
    · rcases List.mem_cons.mp hz with h' | h'
      · exact h' ▸ hx
      · exact h1 z h'
    · match acc, ha with
      | some y, rfl =>
        by_cases hg : decide (key x < key y) = true
        · have := of_decide_eq_true hg
          exact le_trans hx (le_of_lt this)
        · exact h2 y (by simp [hg])

/-- Monotonicity of filter length under a pointwise implication. -/
theorem length_filter_mono {β : Type} (l : List β) (p q : β → Bool)
    (h : ∀ b ∈ l, p b = true → q b = true) :
    (l.filter p).length ≤ (l.filter q).length := by
  induction l with
  | nil => exact Nat.le_refl 0
  | cons x t ih =>
    have ht := ih (fun b hb => h b (List.mem_cons_of_mem x hb))
    by_cases hp : p x = true
    · have hq := h x (List.mem_cons_self x t) hp
      simp [List.filter, hp, hq]
      exact ht
    · have hp' : p x = false := Bool.not_eq_true _ ▸ hp
      by_cases hq : q x = true
      · simp [List.filter, hp', hq]
        exact Nat.le_succ_of_le ht
      · have hq' : q x = false := Bool.not_eq_true _ ▸ hq
        simp [List.filter, hp', hq']
        exact ht

/-- Strict filter-length inequality: a pointwise implication plus one
element satisfying only the larger predicate. -/
theorem length_filter_strict {β : Type} (l : List β) (p q : β → Bool)
    (h : ∀ b ∈ l, p b = true → q b = true) (b0 : β) (hb0 : b0 ∈ l)
    (hq0 : q b0 = true) (hp0 : p b0 = false) :
    (l.filter p).length < (l.filter q).length := by
  induction l with
  | nil => cases hb0
  | cons x t ih =>
    have hmono := length_filter_mono t p q (fun b hb => h b (List.mem_cons_of_mem x hb))
    rcases List.mem_cons.mp hb0 with h' | h'
    · subst h'
      simp [List.filter, hp0, hq0]
      exact Nat.lt_succ_of_le hmono
    · have ht := ih (fun b hb => h b (List.mem_cons_of_mem x hb)) h'
      by_cases hp : p x = true
      · have hq := h x (List.mem_cons_self x t) hp
        simp [List.filter, hp, hq]
        exact ht
      · have hp' : p x = false := Bool.not_eq_true _ ▸ hp
        by_cases hq : q x = true
        · simp [List.filter, hp', hq]
          exact Nat.lt_succ_of_le (Nat.le_of_lt ht)
        · have hq' : q x = false := Bool.not_eq_true _ ▸ hq
          simp [List.filter, hp', hq']
          exact ht

/-- Maximality corollary of pickBest for a DESC-ordered limit-1 search. -/
theorem pickBest_max_key {β : Type} (key : β → Int) (l : List β) (b : β)
    (h : pickBest (fun x y => decide (key x > key y)) l = some b) :
    ∀ x ∈ l, key x ≤ key b :=
  (pickBest_fold_max key l none b h).1

/-- Minimality corollary of pickBest for an ASC-ordered limit-1 search. -/
theorem pickBest_min_key {β : Type} (key : β → Int) (l : List β) (b : β)
    (h : pickBest (fun x y => decide (key x < key y)) l = some b) :
    ∀ x ∈ l, key b ≤ key x :=
  (pickBest_fold_min key l none b h).1

/-- Nonempty lists have a pickBest result. -/
theorem pickBest_isSome {β : Type} (better : β → β → Bool) (l : List β)
    (h : l ≠ []) : (pickBest better l).isSome = true :=
  pickBest_fold_isSome better l none (Or.inr h)

/-- C6: for every existing Deferral record and every write payload, the
write operation on Deferral records fails with the access error regardless
of the selection and of which fields or values the payload contains; the
error result carries no database, so every stored record is unchanged
(src/account.py:1763, AccountDeferral.write). -/
theorem spec_C6 (db : Db) (ids : List Nat) (vals : List DAssign) :
    deferral_write db ids vals = Except.error DeferralError.writeDeferral :=
  rfl

/-- C9: Period.find only ever considers periods of type standard whose date
range contains the given date, of the given company, restricted to state
open when test_state is set (so adjustment periods are never returned); a
returned period has the latest start date among the matching ones; and with
no match it raises no_period_date or returns None according to the
exception argument (src/period.py:174). -/
theorem spec_C9 (db : Db) (company_id : Nat) (date : Int)
    (exception test_state : Bool) :
    (∀ i, period_find db company_id date exception test_state = Except.ok (some i) →
      ∃ p ∈ db.periods, p.id = i ∧ p.type = PType.standard
        ∧ p.start_date ≤ date ∧ date ≤ p.end_date
        ∧ fyCompany db p = some company_id
        ∧ (test_state = true → p.state = PState.open')
        ∧ ∀ q ∈ db.periods, q.type = PType.standard → q.start_date ≤ date →
            date ≤ q.end_date → fyCompany db q = some company_id →
            (test_state = true → q.state = PState.open') →
            q.start_date ≤ p.start_date)
    ∧ ((¬ ∃ p ∈ db.periods, p.type = PType.standard ∧ p.start_date ≤ date
          ∧ date ≤ p.end_date ∧ fyCompany db p = some company_id
          ∧ (test_state = true → p.state = PState.open')) →
        period_find db company_id date exception test_state =
          if exception then Except.error PeriodError.noPeriodDate
          else Except.ok none) := by
  have hmem : ∀ p : Period,
      (decide (p.start_date ≤ date) && decide (date ≤ p.end_date)
        && (fyCompany db p == some company_id) && (p.type == PType.standard)
        && (!test_state || p.state == PState.open')) = true ↔
      (p.type = PType.standard ∧ p.start_date ≤ date ∧ date ≤ p.end_date
        ∧ fyCompany db p = some company_id
        ∧ (test_state = true → p.state = PState.open')) := by
    intro p
    cases test_state <;> simp [Bool.and_eq_true, decide_eq_true_eq] <;> tauto
  constructor
  · intro i h
    simp only [period_find] at h
    split at h
    · rename_i p hpb
      have hpi : p.id = i := by
        simpa using h
      have hpf := pickBest_mem _ _ p hpb
      have hpdb : p ∈ db.periods := (List.mem_filter.mp hpf).1
      have hprop := (hmem p).mp ((List.mem_filter.mp hpf).2)
      refine ⟨p, hpdb, hpi, hprop.1, hprop.2.1, hprop.2.2.1, hprop.2.2.2.1,
        hprop.2.2.2.2, ?_⟩
      intro q hq hq1 hq2 hq3 hq4 hq5
      have hqf : q ∈ db.periods.filter (fun p =>
          decide (p.start_date ≤ date) && decide (date ≤ p.end_date)
            && (fyCompany db p == some company_id) && (p.type == PType.standard)
            && (!test_state || p.state == PState.open')) :=
        List.mem_filter.mpr ⟨hq, (hmem q).mpr ⟨hq1, hq2, hq3, hq4, hq5⟩⟩
      exact pickBest_max_key Period.start_date _ p hpb q hqf
    · rename_i hpb
      by_cases he : exception = true <;> simp [he] at h
  · intro hno
    have hempty : db.periods.filter (fun p =>
        decide (p.start_date ≤ date) && decide (date ≤ p.end_date)
          && (fyCompany db p == some company_id) && (p.type == PType.standard)
          && (!test_state || p.state == PState.open')) = [] := by
      rw [List.filter_eq_nil_iff]
      intro p hp hpred
      exact hno ⟨p, hp, (hmem p).mp hpred⟩
    simp only [period_find]
    rw [hempty]
    rfl

deriving instance DecidableEq for Except

/-- Two members of a list with pairwise distinct keys and the same key are
the same element. -/
theorem key_inj_of_nodup {β : Type} (key : β → Nat) (l : List β)
    (hnd : (l.map key).Nodup) (a b : β) (ha : a ∈ l) (hb : b ∈ l)
    (he : key a = key b) : a = b := by
  obtain ⟨l1, l2, rfl, h1, h2⟩ := nodup_key_split key l b hnd hb
  rcases List.mem_append.mp ha with h | h
  · exact absurd he (h1 a h)
  · rcases List.mem_cons.mp h with h' | h'
    · exact h'
    · exact absurd he (h2 a h')

/-- Lookup by id commutes with an id-preserving row update. -/
theorem findPeriod_map (l : List Period) (g : Period → Period)
    (hg : ∀ q, (g q).id = q.id) (i : Nat) :
    (l.map g).find? (fun q => q.id == i) = (l.find? (fun q => q.id == i)).map g := by
  induction l with
  | nil => rfl
  | cons x t ih =>
    rw [List.map_cons, List.find?_cons, List.find?_cons]
    have hgid : ((g x).id == i) = (x.id == i) := by rw [hg]
    rw [hgid]
    cases hxb : (x.id == i) with
    | true => rfl
    | false => exact ih

/-- Lookup of a member of a period table with pairwise distinct ids. -/
theorem findPeriod_eq_self (db : Db) (p : Period)
    (hnd : (db.periods.map (fun q => q.id)).Nodup) (hp : p ∈ db.periods) :
    findPeriod db p.id = some p := by
  show db.periods.find? (fun q => q.id == p.id) = some p
  exact find_key_eq (fun r => r.id) db.periods p hnd hp

/-- Lookup of a member of a fiscal-year table with pairwise distinct ids. -/
theorem findFY_eq_self (db : Db) (f : FiscalYear)
    (hnd : (db.fiscalyears.map (fun g => g.id)).Nodup) (hf : f ∈ db.fiscalyears) :
    findFY db f.id = some f := by
  show db.fiscalyears.find? (fun g => g.id == f.id) = some f
  exact find_key_eq (fun r => r.id) db.fiscalyears f hnd hf

/-- Lookup of a member of an account table with pairwise distinct ids. -/
theorem findAccount_eq_self (db : Db) (a : Account)
    (hnd : (db.accounts.map (fun b => b.id)).Nodup) (ha : a ∈ db.accounts) :
    findAccount db a.id = some a := by
  show db.accounts.find? (fun b => b.id == a.id) = some a
  exact find_key_eq (fun r => r.id) db.accounts a hnd ha

/-- Membership of a period's id in the ids kept by the Workflow.transition
filter of a period operation. -/
theorem mem_transition_ids (db : Db) (ids : List Nat) (target : PState)
    (p : Period) (hnd : (db.periods.map (fun q => q.id)).Nodup)
    (hp : p ∈ db.periods) :
    p.id ∈ ((browsePeriods db ids).filter
        (fun q => transitionAllowed q.state target)).map (fun q => q.id) ↔
      p.id ∈ ids ∧ transitionAllowed p.state target = true := by
  constructor
  · intro h
    obtain ⟨q, hqf, hqi⟩ := List.mem_map.mp h
    have hqb := (List.mem_filter.mp hqf).1
    have hqa := (List.mem_filter.mp hqf).2
    obtain ⟨i, hi, hfind⟩ := List.mem_filterMap.mp hqb
    have hqdb : q ∈ db.periods := List.mem_of_find?_eq_some hfind
    have hqid : q.id = i := by
      have := List.find?_some hfind
      simpa using this
    have hqp : q = p := key_inj_of_nodup (fun r => r.id) db.periods hnd q p hqdb hp hqi
    subst hqp
    exact ⟨hqid ▸ hi, hqa⟩
  · intro ⟨hin, hall⟩
    apply List.mem_map.mpr
    refine ⟨p, List.mem_filter.mpr ⟨?_, hall⟩, rfl⟩
    apply List.mem_filterMap.mpr
    exact ⟨p.id, hin, findPeriod_eq_self db p hnd hp⟩

/-- A successful Period.write applies the payload to the selected periods
and nothing else. -/
theorem period_write_ok (db : Db) (ids : List Nat) (vals : List PAssign)
    (db' : Db) (h : period_write db ids vals = Except.ok db') :
    db' = { db with periods := db.periods.map (fun p =>
      if p.id ∈ ids then applyValues p vals else p) } := by
  simp only [period_write] at h
  split at h
  · exact absurd h (by simp)
  · split at h
    · exact absurd h (by simp)
    · split at h
      · exact absurd h (by simp)
      · exact (Except.ok.inj h).symm

/-- The open -> close transition is the only registered one into close. -/
theorem allowed_into_close (s : PState) :
    transitionAllowed s PState.close = true ↔ s = PState.open' := by
  cases s <;> decide

/-- The close -> locked transition is the only registered one into locked. -/
theorem allowed_into_locked (s : PState) :
    transitionAllowed s PState.locked = true ↔ s = PState.close := by
  cases s <;> decide

/-- The close -> open transition is the only registered one into open. -/
theorem allowed_into_open (s : PState) :
    transitionAllowed s PState.open' = true ↔ s = PState.close := by
  cases s <;> decide

/-- C7: close succeeds only from state open, lock only from state close,
reopen only from state close; a period of the selection in any other state
is left with its state unchanged, and a failing call leaves every period
unchanged (the error result carries no database).  For each operation, a
successful result maps every stored period to itself, with only the state
field of the matching selected periods moved to the target state
(src/period.py:78 Period.__setup__ transitions, 299 close, 329 reopen,
336 lock). -/
theorem spec_C7 (db : Db) (ids : List Nat) (p : Period)
    (hnd : (db.periods.map (fun q => q.id)).Nodup) (hp : p ∈ db.periods) :
    (∀ db', period_close db ids = Except.ok db' →
      findPeriod db' p.id = some (if p.id ∈ ids ∧ p.state = PState.open'
        then { p with state := PState.close } else p))
    ∧ (∀ db', period_lock db ids = Except.ok db' →
      findPeriod db' p.id = some (if p.id ∈ ids ∧ p.state = PState.close
        then { p with state := PState.locked } else p))
    ∧ (∀ db', period_reopen db ids = Except.ok db' →
      findPeriod db' p.id = some (if p.id ∈ ids ∧ p.state = PState.close
        then { p with state := PState.open' } else p)) := by
  have main : ∀ (dbx : Db) (fids : List Nat) (s : PState) (db' : Db),
      period_write dbx fids [PAssign.state s] = Except.ok db' →
      dbx.periods = db.periods →
      findPeriod db' p.id = some (if p.id ∈ fids
        then { p with state := s } else p) := by
    intro dbx fids s db' h hdbx
    have hdb' := period_write_ok dbx fids [PAssign.state s] db' h
    subst hdb'
    show (dbx.periods.map (fun q =>
      if q.id ∈ fids then applyValues q [PAssign.state s] else q)).find?
        (fun q => q.id == p.id) = _
    rw [hdbx]
    rw [findPeriod_map db.periods _ (fun q => by
      by_cases hq : q.id ∈ fids <;> simp [hq, applyValues, applyAssign]) p.id]
    rw [show db.periods.find? (fun q => q.id == p.id) = some p from
      findPeriod_eq_self db p hnd hp]
    by_cases hq : p.id ∈ fids <;> simp [hq, applyValues, applyAssign]
  refine ⟨?_, ?_, ?_⟩
  · intro db' h
    simp only [period_close] at h
    split at h
    · exact absurd h (by simp)
    · refine Eq.trans (main _ _ _ db' h rfl) ?_
      congr 1
      rw [if_congr (Iff.trans (mem_transition_ids db ids PState.close p hnd hp)
        (and_congr_right (fun _ => allowed_into_close p.state))) rfl rfl]
  · intro db' h
    simp only [period_lock] at h
    refine Eq.trans (main _ _ _ db' h rfl) ?_
    congr 1
    rw [if_congr (Iff.trans (mem_transition_ids db ids PState.locked p hnd hp)
      (and_congr_right (fun _ => allowed_into_locked p.state))) rfl rfl]
  · intro db' h
    simp only [period_reopen] at h
    refine Eq.trans (main _ _ _ db' h rfl) ?_
    congr 1
    rw [if_congr (Iff.trans (mem_transition_ids db ids PState.open' p hnd hp)
      (and_congr_right (fun _ => allowed_into_open p.state))) rfl rfl]

/-- Browsed periods are stored periods with a selected id. -/
theorem mem_browse (db : Db) (ids : List Nat) (q : Period)
    (h : q ∈ browsePeriods db ids) : q ∈ db.periods ∧ q.id ∈ ids := by
  obtain ⟨i, hi, hf⟩ := List.mem_filterMap.mp h
  refine ⟨List.mem_of_find?_eq_some hf, ?_⟩
  have := List.find?_some hf
  have hqi : q.id = i := by simpa using this
  exact hqi ▸ hi

/-- Concrete rows used by the witnesses and counterexamples: a closed first
fiscal year with a deferral snapshot, an open second fiscal year with one
posted move line. -/
def exFY1 : FiscalYear :=
  { id := 1, company := 1, start_date := 0, end_date := 99, state := FYState.close }

/-- Open second fiscal year of the concrete example. -/
def exFY2 : FiscalYear :=
  { id := 2, company := 1, start_date := 100, end_date := 199, state := FYState.open' }

/-- Closed period covering the first fiscal year. -/
def exP1 : Period :=
  { id := 1, fiscalyear := 1, start_date := 0, end_date := 99,
    type := PType.standard, state := PState.close, post_move_sequence := none }

/-- Open period covering the second fiscal year. -/
def exP2 : Period :=
  { id := 2, fiscalyear := 2, start_date := 100, end_date := 199,
    type := PType.standard, state := PState.open', post_move_sequence := none }

/-- Account of the concrete example. -/
def exAcc : Account :=
  { id := 1, company := 1, left := 0, right := 10, currency := 1,
    second_currency := none }

/-- Posted move of the second fiscal year. -/
def exMove : Move := { id := 1, period := 2, date := 150, posted := true }

/-- Line of the posted move: debit 7 on the example account. -/
def exLine : MoveLine :=
  { id := 1, move := 1, account := 1, debit := 7, credit := 0,
    amount_second_currency := 0 }

/-- Deferral snapshot of the first fiscal year for the example account. -/
def exDef : Deferral :=
  { id := 1, account := 1, fiscalyear := 1, debit := 5, credit := 0,
    amount_second_currency := 0, line_count := 1 }

/-- Example database. -/
def exDb : Db :=
  { fiscalyears := [exFY1, exFY2], periods := [exP1, exP2], accounts := [exAcc],
    moves := [exMove], lines := [exLine], deferrals := [exDef],
    journalPeriods := [] }

/-- Identity rounding used to instantiate the abstract currency rounding in
the concrete examples. -/
def exRound : Nat → Int → Int := fun _ v => v

/-- Example context: fiscal year 2, cumulate set. -/
def exCtx : Ctx := { fiscalyear := some 2, cumulate := true }

/-- Database after closing period 2 of the example. -/
def exDbClosed : Db :=
  { exDb with periods := [exP1, { exP2 with state := PState.close }] }

/-- Witness for C7: closing period 2 (state open) of the example moves
exactly its state to close. -/
theorem spec_C7_witness :
    findPeriod exDbClosed exP2.id = some (if exP2.id ∈ [2] ∧ exP2.state = PState.open'
      then { exP2 with state := PState.close } else exP2) :=
  (spec_C7 exDb [2] exP2 (by decide) (by decide)).1 exDbClosed (by decide)

/-- Witness for C9: at date 150 the example lookup returns period 2, which
satisfies every matching condition and has the latest start date. -/
theorem spec_C9_witness :
    ∃ p ∈ exDb.periods, p.id = 2 ∧ p.type = PType.standard
      ∧ p.start_date ≤ 150 ∧ (150 : Int) ≤ p.end_date
      ∧ fyCompany exDb p = some 1
      ∧ (true = true → p.state = PState.open')
      ∧ ∀ q ∈ exDb.periods, q.type = PType.standard → q.start_date ≤ 150 →
          (150 : Int) ≤ q.end_date → fyCompany exDb q = some 1 →
          (true = true → q.state = PState.open') →
          q.start_date ≤ p.start_date :=
  (spec_C9 exDb 1 150 true true).1 2 (by decide)

/-- Unposted move sitting in the already-closed period 1. -/
def exMoveUnposted : Move := { id := 2, period := 1, date := 50, posted := false }

/-- Database for the C8 counterexample: period 1 is closed and holds an
unposted move, period 2 is open and clean. -/
def exDbC8 : Db := { exDb with moves := [exMove, exMoveUnposted] }

/-- Result of closing the selection {1, 2} on the C8 counterexample
database: period 2 is closed, nothing else changes. -/
def exDbC8After : Db :=
  { exDbC8 with periods := [exP1, { exP2 with state := PState.close }] }

/-- Counterexample for C8: the selection {period 1, period 2} contains an
unposted move (in period 1, whose state is close), yet Period.close
succeeds and changes period 2's state: the Workflow filter removes period 1
from the checked set, so the claim's guard, quantified over every selected
period, does not hold as stated. -/
theorem spec_C8_counterexample :
    period_close exDbC8 [1, 2] = Except.ok exDbC8After
    ∧ exMoveUnposted ∈ exDbC8.moves ∧ exMoveUnposted.posted = false
    ∧ exMoveUnposted.period ∈ [1, 2]
    ∧ findPeriod exDbC8After 2 = some { exP2 with state := PState.close } := by
  decide

/-- C8 (amended): for every selection whose periods in state open (the ones
the open -> close transition filter keeps) contain at least one non-posted
move, Period.close fails with close_period_non_posted_move identifying an
offending period and move of that kind, and the error result carries no
database, so no period state changes and no journal-period cascade takes
effect (src/period.py:299). -/
theorem spec_C8_amended (db : Db) (ids : List Nat)
    (hnd : (db.periods.map (fun q => q.id)).Nodup)
    (hex : ∃ m ∈ db.moves, m.posted = false ∧ ∃ p ∈ db.periods,
      p.id = m.period ∧ p.id ∈ ids ∧ p.state = PState.open') :
    ∃ perId mId, period_close db ids = Except.error
        (PeriodError.closePeriodNonPostedMove perId mId)
      ∧ ∃ m ∈ db.moves, m.id = mId ∧ m.period = perId ∧ m.posted = false
        ∧ ∃ p ∈ db.periods, p.id = perId ∧ p.id ∈ ids ∧ p.state = PState.open' := by
  obtain ⟨m0, hm0, hm0p, p0, hp0, hp0id, hp0in, hp0st⟩ := hex
  cases hfind : db.moves.find? (fun m =>
      (((browsePeriods db ids).filter
        (fun p => transitionAllowed p.state PState.close)).map
          (fun p => p.id)).contains m.period && !m.posted) with
  | none =>
    exfalso
    have hnone := List.find?_eq_none.mp hfind m0 hm0
    apply hnone
    have hmem : m0.period ∈ ((browsePeriods db ids).filter
        (fun p => transitionAllowed p.state PState.close)).map (fun p => p.id) := by
      rw [← hp0id]
      exact (mem_transition_ids db ids PState.close p0 hnd hp0).mpr
        ⟨hp0in, (allowed_into_close p0.state).mpr hp0st⟩
    simp [hmem, hm0p]
  | some m1 =>
    have hm1 : m1 ∈ db.moves := List.mem_of_find?_eq_some hfind
    have hm1p := List.find?_some hfind
    have hm1per : m1.period ∈ ((browsePeriods db ids).filter
        (fun p => transitionAllowed p.state PState.close)).map (fun p => p.id) := by
      have := (Bool.and_eq_true _ _).mp hm1p
      simpa using this.1
    have hm1un : m1.posted = false := by
      have := (Bool.and_eq_true _ _).mp hm1p
      simpa using this.2
    obtain ⟨q, hqf, hqi⟩ := List.mem_map.mp hm1per
    have hqdb := (mem_browse db ids q (List.mem_filter.mp hqf).1).1
    have hqin := (mem_browse db ids q (List.mem_filter.mp hqf).1).2
    have hqst : q.state = PState.open' :=
      (allowed_into_close q.state).mp (List.mem_filter.mp hqf).2
    refine ⟨m1.period, m1.id, ?_, m1, hm1, rfl, rfl, hm1un, q, hqdb, hqi, hqin, hqst⟩
    simp only [period_close]
    rw [hfind]

/-- Unposted move sitting in the open period 2. -/
def exMoveU2 : Move := { id := 3, period := 2, date := 120, posted := false }

/-- Database for the C8 amended witness: the open period 2 has an unposted
move. -/
def exDbC8w : Db := { exDb with moves := [exMove, exMoveU2] }

/-- Witness for the amended C8: closing the open period 2, which holds the
unposted move 3, fails naming that period and move. -/
theorem spec_C8_amended_witness :
    ∃ perId mId, period_close exDbC8w [2] = Except.error
        (PeriodError.closePeriodNonPostedMove perId mId)
      ∧ ∃ m ∈ exDbC8w.moves, m.id = mId ∧ m.period = perId ∧ m.posted = false
        ∧ ∃ p ∈ exDbC8w.periods, p.id = perId ∧ p.id ∈ [2] ∧ p.state = PState.open' :=
  spec_C8_amended exDbC8w [2] (by decide)
    ⟨exMoveU2, by decide, by decide, exP2, by decide, by decide, by decide, by decide⟩

/-- C10: for a period that already has moves, a write of start_date,
end_date or fiscalyear whose written value equals the period's current
value passes Period._check and succeeds (first conjunct, stated for any
selected period and payload of one structural key); and conversely the
referenced-entity rejection modify_del_period_moves names a period of the
selection whose value for the first structural key of the payload actually
changes and that is referenced by a stored move (second conjunct)
(src/period.py:258 Period.write, 206 Period._check). -/
theorem spec_C10 (db : Db) (hnd : (db.periods.map (fun q => q.id)).Nodup) :
    (∀ p a, p ∈ db.periods → structuralKey a = true → assignModified a p = false →
      ∃ db', period_write db [p.id] [a] = Except.ok db')
    ∧ (∀ ids vals pid, period_write db ids vals = Except.error
          (PeriodError.modifyDelPeriodMoves pid) →
        ∃ a, vals.find? structuralKey = some a
          ∧ ∃ p ∈ db.periods, p.id = pid ∧ p.id ∈ ids ∧ assignModified a p = true
          ∧ ∃ m ∈ db.moves, m.period = pid) := by
  constructor
  · intro p a hp ha hmod
    have hbrowse : browsePeriods db [p.id] = [p] := by
      show List.filterMap (findPeriod db) [p.id] = [p]
      rw [List.filterMap_cons, findPeriod_eq_self db p hnd hp]
      rfl
    have hfa : List.find? structuralKey [a] = some a := by
      rw [List.find?_cons, ha]
    have hvsp : valuesState [a] = none ∧ valuesPMS [a] = none := by
      cases a <;> simp [valuesState, valuesPMS, List.findSome?]
        <;> simp [structuralKey] at ha
    have hfilter : List.filter (fun q => assignModified a q) [p] = [] := by
      simp [List.filter_cons, hmod]
    have hg1 : structGuard db [p] [a] = none := by
      simp only [structGuard, hfa, hfilter]
      have hnone : db.moves.find? (fun _ => false) = none :=
        List.find?_eq_none.mpr (fun x _ => by simp)
      simp [hnone]
    have hg2 : stateGuard db [p] [a] = none := by
      simp [stateGuard, hvsp.1]
    have hg3 : pmsGuard db [p] [a] = none := by
      simp [pmsGuard, hvsp.2]
    refine ⟨{ db with periods := db.periods.map (fun q =>
      if q.id ∈ [p.id] then applyValues q [a] else q) }, ?_⟩
    simp only [period_write]
    rw [hbrowse, hg1, hg2, hg3]
  · intro ids vals pid h
    simp only [period_write] at h
    split at h
    · rename_i e heq
      have he : e = PeriodError.modifyDelPeriodMoves pid := by
        simpa using h
      rw [he] at heq
      simp only [structGuard] at heq
      split at heq
      · rename_i a hfa
        split at heq
        · rename_i m hm
          have hpid : m.period = pid := by
            simpa using heq
          have hmem : m ∈ db.moves := List.mem_of_find?_eq_some hm
          have hmp := List.find?_some hm
          have hmper : m.period ∈ ((browsePeriods db ids).filter
              (fun q => assignModified a q)).map (fun q => q.id) := by
            simpa using hmp
          obtain ⟨q, hqf, hqi⟩ := List.mem_map.mp hmper
          have hqb := mem_browse db ids q (List.mem_filter.mp hqf).1
          have hqm : assignModified a q = true := (List.mem_filter.mp hqf).2
          exact ⟨a, hfa, q, hqb.1, hqi.trans hpid, hqb.2, hqm, m, hmem, hpid⟩
        · simp at heq
      · simp at heq
    · split at h
      · rename_i e heq
        have hshape : ∃ i, e = PeriodError.openPeriodClosedFiscalyear i := by
          simp only [stateGuard] at heq
          split at heq
          · split at heq
            · rename_i q hq
              exact ⟨q.id, (Option.some.inj heq).symm⟩
            · simp at heq
          · simp at heq
        obtain ⟨i, hi⟩ := hshape
        rw [hi] at h
        simp at h
      · split at h
        · rename_i e heq
          have hshape : ∃ i, e = PeriodError.changePostMoveSequence i := by
            simp only [pmsGuard] at heq
            split at heq
            · split at heq
              · rename_i q hq
                exact ⟨q.id, (Option.some.inj heq).symm⟩
              · simp at heq
            · simp at heq
          obtain ⟨i, hi⟩ := hshape
          rw [hi] at h
          simp at h
        · simp at h

/-- Witness for C10: writing start_date 100 (the current value) to period 2
of the example, which has the posted move 1, succeeds. -/
theorem spec_C10_witness :
    ∃ db', period_write exDb [exP2.id] [PAssign.start_date 100] = Except.ok db' :=
  (spec_C10 exDb (by decide)).1 exP2 (PAssign.start_date 100) (by decide)
    (by decide) (by decide)

/-- A field name starting with start_ does not start with end_. -/
theorem nameStarts_start_not_end (s : String)
    (h : nameStarts s "start_" = true) : nameStarts s "end_" = false := by
  unfold nameStarts at h ⊢
  rw [show "start_".toList = ['s', 't', 'a', 'r', 't', '_'] from by decide] at h
  rw [show "end_".toList = ['e', 'n', 'd', '_'] from by decide]
  cases hl : s.toList with
  | nil => rw [hl] at h; simp [List.isPrefixOf] at h
  | cons c cs =>
    rw [hl] at h
    simp only [List.isPrefixOf, Bool.and_eq_true, beq_iff_eq] at h
    obtain ⟨hc, -⟩ := h
    subst hc
    simp [List.isPrefixOf]

/-- A field name starting with end_ does not start with start_. -/
theorem nameStarts_end_not_start (s : String)
    (h : nameStarts s "end_" = true) : nameStarts s "start_" = false := by
  unfold nameStarts at h ⊢
  rw [show "end_".toList = ['e', 'n', 'd', '_'] from by decide] at h
  rw [show "start_".toList = ['s', 't', 'a', 'r', 't', '_'] from by decide]
  cases hl : s.toList with
  | nil => rw [hl] at h; simp [List.isPrefixOf] at h
  | cons c cs =>
    rw [hl] at h
    simp only [List.isPrefixOf, Bool.and_eq_true, beq_iff_eq] at h
    obtain ⟨hc, -⟩ := h
    subst hc
    simp [List.isPrefixOf]

/-- Membership in the window ids built by get_period_ids when the possibly
padded search result is nonempty-guarded, assuming a single-day boundary is
already part of the search result. -/
theorem mem_pad_ids (found : List Period) (P : Period) (sd : Bool) (i : Nat)
    (hsd : sd = true → P ∈ found) :
    (i ∈ (if (if sd = true then found ++ [P] else found).isEmpty = true then []
      else (if sd = true then found ++ [P] else found).map (fun q => q.id)) ↔
      i ∈ found.map (fun q => q.id)) := by
  by_cases h : sd = true
  · have hP := hsd h
    simp only [h, if_true, List.isEmpty_eq_true, List.append_eq_nil]
    rw [if_neg (by simp)]
    simp only [List.map_append, List.mem_append, List.map_cons, List.map_nil,
      List.mem_singleton]
    constructor
    · rintro (hi | hi)
      · exact hi
      · exact hi ▸ List.mem_map_of_mem (fun q => q.id) hP
    · exact Or.inl
  · have h' : sd = false := Bool.not_eq_true sd ▸ h
    by_cases hf : found.isEmpty = true
    · rw [List.isEmpty_eq_true] at hf
      simp [h', hf]
    · simp only [h', if_false]
      rw [if_neg (by simpa using hf)]
      simp

/-- Membership in the end_-field window ids of get_period_ids: the
possibly padded and nonempty-guarded search result plus the always-appended
boundary id. -/
theorem mem_pad_ids_or (found : List Period) (P : Period) (sd : Bool) (i : Nat) :
    (i ∈ ((if (if sd = true then found ++ [P] else found).isEmpty = true then []
      else (if sd = true then found ++ [P] else found).map (fun q => q.id))
        ++ [P.id]) ↔
      (i ∈ found.map (fun q => q.id) ∨ i = P.id)) := by
  by_cases h : sd = true
  · simp only [h, if_true, List.isEmpty_eq_true, List.append_eq_nil]
    rw [if_neg (by simp)]
    simp only [List.map_append, List.mem_append, List.map_cons, List.map_nil,
      List.mem_singleton]
    tauto
  · have h' : sd = false := Bool.not_eq_true sd ▸ h
    by_cases hf : found.isEmpty = true
    · rw [List.isEmpty_eq_true] at hf
      simp [h', hf]
    · simp only [h', if_false]
      rw [if_neg (by simpa using hf)]
      simp [List.mem_append]

/-- C4: with an explicit boundary period belonging to the context fiscal
year, a start_X field's window is exactly the set of periods of the context
fiscal year whose end date is at or before the boundary's start date (the
source's single-day padding adds only a period already in that set), and
with explicit dates its window is to_date = context from_date minus one
day; an end_X field's window is exactly the periods of the context fiscal
year ending at or before and starting strictly before the boundary's end
date, plus always the boundary period itself, whatever its dates
(src/account.py:1881 get_period_ids, 1926 get_dates). -/
theorem spec_C4 (db : Db) (ctx : Ctx) (name : String) (i0 : Nat) (P : Period)
    (hfp : findPeriod db i0 = some P) (hPfy : some P.fiscalyear = ctx.fiscalyear) :
    (nameStarts name "start_" = true → ctx.start_period = some i0 →
      ∀ i, i ∈ get_period_ids db ctx name ↔
        ∃ q ∈ db.periods, some q.fiscalyear = ctx.fiscalyear
          ∧ q.end_date ≤ P.start_date ∧ q.id = i)
    ∧ (nameStarts name "start_" = true →
      get_dates ctx name = (none, ctx.from_date.map (fun d => d - 1)))
    ∧ (nameStarts name "end_" = true → ctx.end_period = some i0 →
      ∀ i, i ∈ get_period_ids db ctx name ↔
        ((∃ q ∈ db.periods, some q.fiscalyear = ctx.fiscalyear
          ∧ q.end_date ≤ P.end_date ∧ q.start_date < P.end_date ∧ q.id = i)
          ∨ i = P.id)) := by
  have hPdb : P ∈ db.periods := List.mem_of_find?_eq_some hfp
  refine ⟨?_, ?_, ?_⟩
  · intro hstart hsp i
    have hend := nameStarts_start_not_end name hstart
    simp only [get_period_ids, hstart, hend, hsp, hfp, if_true,
      Bool.false_eq_true, if_false]
    have hsd : ((P.start_date == P.end_date) = true) → P ∈ db.periods.filter
        (fun q => some q.fiscalyear == ctx.fiscalyear
          && decide (q.end_date ≤ P.start_date)) := by
      intro h1
      refine List.mem_filter.mpr ⟨hPdb, ?_⟩
      have hse : P.start_date = P.end_date := by simpa using h1
      simp [← hPfy, hse]
    rw [mem_pad_ids _ P _ i hsd]
    simp only [List.mem_map, List.mem_filter, Bool.and_eq_true, beq_iff_eq,
      decide_eq_true_eq]
    constructor
    · rintro ⟨q, ⟨hq, hfy, hle⟩, hi⟩
      exact ⟨q, hq, hfy, hle, hi⟩
    · rintro ⟨q, hq, hfy, hle, hi⟩
      exact ⟨q, ⟨hq, hfy, hle⟩, hi⟩
  · intro hstart
    simp only [get_dates, hstart, if_true]
  · intro hendp hep i
    have hstart := nameStarts_end_not_start name hendp
    simp only [get_period_ids, hstart, hendp, hep, hfp, if_true,
      Bool.false_eq_true, if_false]
    rw [mem_pad_ids_or (db.periods.filter (fun q =>
      some q.fiscalyear == ctx.fiscalyear && (decide (q.end_date ≤ P.end_date)
        && decide (q.start_date < P.end_date)))) P _ i]
    simp only [List.mem_map, List.mem_filter, Bool.and_eq_true, beq_iff_eq,
      decide_eq_true_eq]
    constructor
    · rintro (⟨q, ⟨hq, hfy, hle, hlt⟩, hi⟩ | hi)
      · exact Or.inl ⟨q, hq, hfy, hle, hlt, hi⟩
      · exact Or.inr hi
    · rintro (⟨q, hq, hfy, hle, hlt, hi⟩ | hi)
      · exact Or.inl ⟨q, ⟨hq, hfy, hle, hlt⟩, hi⟩
      · exact Or.inr hi

/-- Context with an explicit start boundary period 2. -/
def exCtx4 : Ctx := { fiscalyear := some 2, start_period := some 2 }

/-- Context with an explicit end boundary period 2. -/
def exCtxE : Ctx := { fiscalyear := some 2, end_period := some 2 }

/-- Witness for C4 on the concrete example: both window characterisations
and the date window, instantiated at boundary period 2. -/
theorem spec_C4_witness :
    (1 ∈ get_period_ids exDb exCtx4 "start_balance" ↔
      ∃ q ∈ exDb.periods, some q.fiscalyear = exCtx4.fiscalyear
        ∧ q.end_date ≤ exP2.start_date ∧ q.id = 1)
    ∧ get_dates exCtx4 "start_balance" = (none, exCtx4.from_date.map (fun d => d - 1))
    ∧ (2 ∈ get_period_ids exDb exCtxE "end_balance" ↔
      ((∃ q ∈ exDb.periods, some q.fiscalyear = exCtxE.fiscalyear
        ∧ q.end_date ≤ exP2.end_date ∧ q.start_date < exP2.end_date ∧ q.id = 2)
        ∨ 2 = exP2.id)) :=
  ⟨(spec_C4 exDb exCtx4 "start_balance" 2 exP2 (by decide) (by decide)).1
      (by decide) (by decide) 1,
    (spec_C4 exDb exCtx4 "start_balance" 2 exP2 (by decide) (by decide)).2.1
      (by decide),
    (spec_C4 exDb exCtxE "end_balance" 2 exP2 (by decide) (by decide)).2.2
      (by decide) (by decide) 2⟩

/-- First open period of the second fiscal year (C5 example). -/
def exP2a : Period :=
  { id := 3, fiscalyear := 2, start_date := 100, end_date := 149,
    type := PType.standard, state := PState.open', post_move_sequence := none }

/-- Second, most recent open period of the second fiscal year (C5 example). -/
def exP2b : Period :=
  { id := 4, fiscalyear := 2, start_date := 150, end_date := 199,
    type := PType.standard, state := PState.open', post_move_sequence := none }

/-- Database for the C5 counterexample: fiscal year 2 has two open standard
periods. -/
def exDb5 : Db := { exDb with periods := [exP1, exP2a, exP2b] }

/-- Context of the C5 scenario: only the fiscal year is set. -/
def exCtx5 : Ctx := { fiscalyear := some 2 }

/-- Counterexample for C5: with no explicit period, no date range and no
start/end period, the single most recent open period of fiscal year 2 is
period 4, but the end_ field resolution leaves the period window
unrestricted (no periods filter at all) instead of using that period. -/
theorem spec_C5_counterexample :
    get_account_window exDb5 exCtx5 "end_balance" = (none, none, none)
    ∧ get_account_window exDb5 exCtx5 "end_balance" ≠ (some [4], none, none)
    ∧ pickBest (fun p q => decide (p.start_date > q.start_date))
        (exDb5.periods.filter (fun p => some p.fiscalyear == exCtx5.fiscalyear
          && p.state == PState.open')) = some exP2b := by
  decide

/-- C5 (amended): with no explicit period, no explicit date range and no
start/end period in the context, resolution of a start_ field uses the
empty period set, while resolution of an end_ field applies no period or
date restriction at all, leaving the whole context fiscal year in scope
(src/account.py:1938 get_account; the default-boundary search of
get_period_ids at 1897 is not reached on this path). -/
theorem spec_C5_amended (db : Db) (ctx : Ctx) (name : String)
    (h1 : ctx.start_period = none) (h2 : ctx.end_period = none)
    (h3 : ctx.from_date = none) (h4 : ctx.end_date = none) :
    (nameStarts name "start_" = true →
      get_account_window db ctx name = (some [], none, none))
    ∧ (nameStarts name "end_" = true →
      get_account_window db ctx name = (none, none, none)) := by
  constructor
  · intro hs
    simp [get_account_window, h1, h2, h3, h4, hs]
  · intro he
    have hs := nameStarts_end_not_start name he
    simp [get_account_window, h1, h2, h3, h4, hs]

/-- Witness for the amended C5 on the concrete example. -/
theorem spec_C5_amended_witness :
    get_account_window exDb5 exCtx5 "start_balance" = (some [], none, none)
    ∧ get_account_window exDb5 exCtx5 "end_balance" = (none, none, none) :=
  ⟨(spec_C5_amended exDb5 exCtx5 "start_balance" rfl rfl rfl rfl).1 (by decide),
    (spec_C5_amended exDb5 exCtx5 "end_balance" rfl rfl rfl rfl).2 (by decide)⟩

/-- Splitting of a duplicate-free list at a member. -/
theorem nodup_split {β : Type} (l : List β) (b0 : β) (hnd : l.Nodup)
    (hb : b0 ∈ l) : ∃ l1 l2, l = l1 ++ b0 :: l2 ∧ b0 ∉ l1 ∧ b0 ∉ l2 := by
  obtain ⟨l1, l2, rfl⟩ := List.append_of_mem hb
  rw [List.nodup_append] at hnd
  refine ⟨l1, l2, rfl, ?_, ?_⟩
  · intro h1
    exact hnd.2.2 h1 (List.mem_cons_self b0 l2)
  · intro h2
    exact (List.nodup_cons.mp hnd.2.1).1 h2

/-- Point evaluation of the per-account rounding loop of get_credit_debit. -/
theorem rounding_fold_eval (round : Nat → Int → Int) (accounts : List Account)
    (names : List CDName) (base : CDName → Nat → Int) (X : Account) (n : CDName)
    (hnda : (accounts.map (fun a => a.id)).Nodup) (hndn : names.Nodup)
    (hX : X ∈ accounts) (hn : n ∈ names) :
    (accounts.foldl (fun v a => names.foldl
      (fun v n' => upd v n' a.id (roundName round a n' (v n' a.id))) v) base) n X.id
      = roundName round X n (base n X.id) := by
  obtain ⟨l1, l2, hsplit, h1, h2⟩ := nodup_key_split (fun a => a.id) accounts X hnda hX
  rw [hsplit]
  refine foldl_point_single l1 l2 X _ base (fun v => v n X.id)
    (roundName round X n) ?_ ?_
  · intro v a ha
    have hne : a.id ≠ X.id := by
      rcases ha with h | h
      · exact h1 a h
      · exact h2 a h
    refine foldl_point_preserve names _ v (fun v => v n X.id) ?_
    intro v' n' _
    show (upd v' n' a.id (roundName round a n' (v' n' a.id))) n X.id = v' n X.id
    simp only [upd]
    rw [if_neg (by tauto)]
  · intro v
    obtain ⟨m1, m2, hsplit2, g1, g2⟩ := nodup_split names n hndn hn
    rw [hsplit2]
    refine foldl_point_single m1 m2 n _ v (fun v => v n X.id)
      (roundName round X n) ?_ ?_
    · intro v' n' hn'
      have hne : n' ≠ n := by
        rcases hn' with h | h
        · exact fun he => g1 (he ▸ h)
        · exact fun he => g2 (he ▸ h)
      show (upd v' n' X.id (roundName round X n' (v' n' X.id))) n X.id = v' n X.id
      simp only [upd]
      rw [if_neg (by tauto)]
    · intro v'
      show (upd v' n X.id (roundName round X n (v' n X.id))) n X.id
        = roundName round X n (v' n X.id)
      simp [upd]

/-- Point evaluation of the per-account rounding loop of get_balance. -/
theorem balance_rounding_fold_eval (round : Nat → Int → Int)
    (accounts : List Account) (base : Nat → Int) (X : Account)
    (hnda : (accounts.map (fun a => a.id)).Nodup) (hX : X ∈ accounts) :
    (accounts.foldl (fun v a =>
      (fun i' => if i' = a.id then round a.currency (v a.id) else v i')) base) X.id
      = round X.currency (base X.id) := by
  obtain ⟨l1, l2, hsplit, h1, h2⟩ := nodup_key_split (fun a => a.id) accounts X hnda hX
  rw [hsplit]
  refine foldl_point_single l1 l2 X _ base (fun v => v X.id)
    (round X.currency) ?_ ?_
  · intro v a ha
    have hne : a.id ≠ X.id := by
      rcases ha with h | h
      · exact h1 a h
      · exact h2 a h
    show (if X.id = a.id then round a.currency (v a.id) else v X.id) = v X.id
    rw [if_neg (fun hcc => hne hcc.symm)]
  · intro v
    show (if X.id = X.id then round X.currency (v X.id) else v X.id)
      = round X.currency (v X.id)
    rw [if_pos rfl]

/-- Point evaluation of the snapshot branch of Account._cumulate: the value
of one requested name for one requested account grows by the deferral
figure when the account has a deferral row for the preceding fiscal year,
else is unchanged. -/
theorem snapshot_fold_eval {α : Type} [DecidableEq α] (db : Db) (fid : Nat)
    (accounts : List Account) (names : List α) (values : α → Nat → Int)
    (defGet : Deferral → α → Int) (X : Account) (n : α)
    (hnda : (accounts.map (fun a => a.id)).Nodup) (hndn : names.Nodup)
    (hX : X ∈ accounts) (hn : n ∈ names) :
    (accounts.foldl (fun v a =>
      match findDeferral db a.id fid with
      | some d => names.foldl (fun v n' => upd v n' a.id (v n' a.id + defGet d n')) v
      | none => v) values) n X.id
      = values n X.id + (match findDeferral db X.id fid with
        | some d => defGet d n
        | none => 0) := by
  obtain ⟨l1, l2, hsplit, h1, h2⟩ := nodup_key_split (fun a => a.id) accounts X hnda hX
  rw [hsplit]
  refine foldl_point_single l1 l2 X _ values (fun v => v n X.id)
    (fun t => t + (match findDeferral db X.id fid with
      | some d => defGet d n
      | none => 0)) ?_ ?_
  · intro v a ha
    have hne : a.id ≠ X.id := by
      rcases ha with h | h
      · exact h1 a h
      · exact h2 a h
    cases hd : findDeferral db a.id fid with
    | none => rfl
    | some d =>
      refine foldl_point_preserve names _ v (fun v => v n X.id) ?_
      intro v' n' _
      show (upd v' n' a.id (v' n' a.id + defGet d n')) n X.id = v' n X.id
      simp only [upd]
      rw [if_neg (by tauto)]
  · intro v
    cases hd : findDeferral db X.id fid with
    | none => simp
    | some d =>
      obtain ⟨m1, m2, hsplit2, g1, g2⟩ := nodup_split names n hndn hn
      rw [hsplit2]
      refine foldl_point_single m1 m2 n _ v (fun v => v n X.id)
        (fun t => t + defGet d n) ?_ ?_
      · intro v' n' hn'
        have hne : n' ≠ n := by
          rcases hn' with h | h
          · exact fun he => g1 (he ▸ h)
          · exact fun he => g2 (he ▸ h)
        show (upd v' n' X.id (v' n' X.id + defGet d n')) n X.id = v' n X.id
        simp only [upd]
        rw [if_neg (by tauto)]
      · intro v'
        show (upd v' n X.id (v' n X.id + defGet d n)) n X.id
          = v' n X.id + defGet d n
        simp [upd]

/-- Point evaluation of the recompute branch of Account._cumulate: the
previous fiscal year's result is added pointwise on the requested keys. -/
theorem recompute_fold_eval {α : Type} [DecidableEq α] (accounts : List Account)
    (names : List α) (values prev : α → Nat → Int) (X : Account) (n : α)
    (hnda : (accounts.map (fun a => a.id)).Nodup) (hndn : names.Nodup)
    (hX : X ∈ accounts) (hn : n ∈ names) :
    (names.foldl (fun v n' => accounts.foldl
      (fun v a => upd v n' a.id (v n' a.id + prev n' a.id)) v) values) n X.id
      = values n X.id + prev n X.id := by
  obtain ⟨m1, m2, hsplit2, g1, g2⟩ := nodup_split names n hndn hn
  rw [hsplit2]
  refine foldl_point_single m1 m2 n _ values (fun v => v n X.id)
    (fun t => t + prev n X.id) ?_ ?_
  · intro v n' hn'
    have hne : n' ≠ n := by
      rcases hn' with h | h
      · exact fun he => g1 (he ▸ h)
      · exact fun he => g2 (he ▸ h)
    refine foldl_point_preserve accounts _ v (fun v => v n X.id) ?_
    intro v' a _
    show (upd v' n' a.id (v' n' a.id + prev n' a.id)) n X.id = v' n X.id
    simp only [upd]
    rw [if_neg (by tauto)]
  · intro v
    obtain ⟨l1, l2, hsplit, h1, h2⟩ := nodup_key_split (fun a => a.id) accounts X hnda hX
    rw [hsplit]
    refine foldl_point_single l1 l2 X _ v (fun v => v n X.id)
      (fun t => t + prev n X.id) ?_ ?_
    · intro v' a ha
      have hne : a.id ≠ X.id := by
        rcases ha with h | h
        · exact h1 a h
        · exact h2 a h
      show (upd v' n a.id (v' n a.id + prev n a.id)) n X.id = v' n X.id
      simp only [upd]
      rw [if_neg (by tauto)]
    · intro v'
      show (upd v' n X.id (v' n X.id + prev n X.id)) n X.id
        = v' n X.id + prev n X.id
      simp [upd]

/-- Sum of a pointwise addition splits. -/
theorem sum_map_add {β : Type} (l : List β) (f g : β → Int) :
    (l.map (fun x => f x + g x)).sum = (l.map f).sum + (l.map g).sum := by
  induction l with
  | nil => simp
  | cons x t ih =>
    simp only [List.map_cons, List.sum_cons, ih]
    ring

/-- Decomposition of a filtered-map sum at a cons cell. -/
theorem filter_map_sum_cons {β : Type} (p : β → Bool) (x : β) (t : List β)
    (g : β → Int) :
    ((List.filter p (x :: t)).map g).sum
      = (if p x = true then g x else 0) + ((List.filter p t).map g).sum := by
  rw [List.filter_cons]
  by_cases hc : p x = true
  · rw [if_pos hc, if_pos hc, List.map_cons, List.sum_cons]
  · rw [if_neg hc, if_neg hc, zero_add]

/-- Contribution of one move line to the descendant join: over an account
table with pairwise distinct ids, summing an indicator keyed on one account
id over the in-range accounts reduces to a lookup of that id. -/
theorem sum_single_line (cs : List Account)
    (hnd : (cs.map (fun c => c.id)).Nodup) (P : Account → Bool) (aid : Nat)
    (x : Int) :
    ((cs.filter P).map (fun c => if (aid == c.id) = true then x else 0)).sum
      = if (((cs.find? (fun c => c.id == aid)).map P).getD false) = true
        then x else 0 := by
  induction cs with
  | nil => simp
  | cons c t ih =>
    rw [List.map_cons, List.nodup_cons] at hnd
    by_cases hc : c.id = aid
    · have hfind : ((c :: t).find? (fun c' => c'.id == aid)) = some c := by
        simp [List.find?_cons, hc]
      rw [hfind]
      have ht0 : ((t.filter P).map
          (fun c' => if (aid == c'.id) = true then x else 0)).sum = 0 := by
        apply List.sum_eq_zero
        intro v hv
        obtain ⟨c', hc', rfl⟩ := List.mem_map.mp hv
        have hne : c'.id ≠ aid := by
          intro he
          exact hnd.1 (hc ▸ he ▸ List.mem_map_of_mem (fun r => r.id)
            (List.mem_of_mem_filter hc'))
        rw [if_neg (by simp only [beq_iff_eq]; exact fun h => hne h.symm)]
      by_cases hp : P c = true
      · rw [List.filter_cons_of_pos hp, List.map_cons, List.sum_cons,
          if_pos (by simp [hc]), ht0]
        simp [hp]
      · rw [List.filter_cons_of_neg (by simpa using hp), ht0]
        simp [Bool.not_eq_true _ ▸ hp]
    · have hfind : ((c :: t).find? (fun c' => c'.id == aid))
          = t.find? (fun c' => c'.id == aid) := by
        simp [List.find?_cons, hc]
      rw [hfind]
      by_cases hp : P c = true
      · rw [List.filter_cons_of_pos hp, List.map_cons, List.sum_cons,
          if_neg (by simp only [beq_iff_eq]; exact fun h => hc h.symm), ih hnd.2]
        ring
      · rw [List.filter_cons_of_neg (by simpa using hp), ih hnd.2]

/-- Flattening of the descendant join of get_balance: summing the in-window
lines account by account over the in-range accounts equals a single sum
over the lines whose account is stored and in range, when the account table
has pairwise distinct ids. -/
theorem join_flatten (cs : List Account) (ls : List MoveLine)
    (hnd : (cs.map (fun c => c.id)).Nodup) (P : Account → Bool)
    (lq : MoveLine → Bool) (g : MoveLine → Int) :
    ((cs.filter P).map (fun c =>
      ((ls.filter (fun l => l.account == c.id && lq l)).map g).sum)).sum
      = ((ls.filter (fun l => lq l
          && ((cs.find? (fun c => c.id == l.account)).map P).getD false)).map g).sum := by
  induction ls with
  | nil =>
    simp only [List.filter_nil, List.map_nil, List.sum_nil]
    apply List.sum_eq_zero
    intro v hv
    obtain ⟨c', _, rfl⟩ := List.mem_map.mp hv
    rfl
  | cons l t ih =>
    calc ((cs.filter P).map (fun c =>
        ((List.filter (fun l' => l'.account == c.id && lq l') (l :: t)).map g).sum)).sum
        = ((cs.filter P).map (fun c =>
            (if (l.account == c.id && lq l) = true then g l else 0)
              + ((List.filter (fun l' => l'.account == c.id && lq l') t).map g).sum)).sum := by
          simp only [filter_map_sum_cons]
      _ = ((cs.filter P).map (fun c =>
            if (l.account == c.id && lq l) = true then g l else 0)).sum
          + ((cs.filter P).map (fun c =>
            ((List.filter (fun l' => l'.account == c.id && lq l') t).map g).sum)).sum :=
          sum_map_add _ _ _
      _ = ((List.filter (fun l' => lq l'
            && ((cs.find? (fun c => c.id == l'.account)).map P).getD false) (l :: t)).map g).sum := by
          rw [ih, filter_map_sum_cons]
          congr 1
          by_cases hlq : lq l = true
          · rw [show (fun c : Account =>
                if (l.account == c.id && lq l) = true then g l else 0)
                = (fun c : Account =>
                  if (l.account == c.id) = true then g l else 0) from
              funext (fun c => by rw [hlq, Bool.and_true])]
            rw [sum_single_line cs hnd P l.account (g l)]
            rw [hlq, Bool.true_and]
          · have hlq' : lq l = false := Bool.not_eq_true _ ▸ hlq
            have h0 : ((cs.filter P).map (fun c =>
                if (l.account == c.id && lq l) = true then g l else 0)).sum = 0 := by
              apply List.sum_eq_zero
              intro v hv
              obtain ⟨c', _, rfl⟩ := List.mem_map.mp hv
              rw [if_neg (by simp [hlq'])]
            rw [h0, if_neg (by simp [hlq'])]

/-- C1: when the preceding fiscal year (the one the source binds as
youngest_fiscalyear is the in-scope fiscal year with the earliest start
date; its predecessor is the latest fiscal year ending before it) is
closed, cumulated get_credit_debit returns the current-window figure plus
the figures of the deferral row keyed (account, preceding fiscal year), and
plus zero when the account has no such row; get_balance does the same with
the deferral row's balance figure (src/account.py:1122 Account._cumulate,
1052 get_credit_debit, 1013 get_balance). -/
theorem spec_C1 (round : Nat → Int → Int) (db : Db) (ctx : Ctx)
    (accounts : List Account) (names : List CDName) (X : Account) (n : CDName)
    (fuel : Nat) (y pred : FiscalYear)
    (hnda : (accounts.map (fun a => a.id)).Nodup) (hndn : names.Nodup)
    (hX : X ∈ accounts) (hn : n ∈ names) (hcum : ctx.cumulate = true)
    (hy : youngestFY (fyBrowse db (query_get db ctx).snd) = some y)
    (hpred : precedingFY db y = some pred)
    (hclosed : pred.state = FYState.close) :
    (∃ r, get_credit_debit round db (fuel + 1) ctx accounts names = some r ∧
      r n X.id = creditDebitRaw round db ctx accounts names n X.id
        + (match findDeferral db X.id pred.id with
          | some d => deferralField d n
          | none => 0))
    ∧ (∃ b, get_balance round db (fuel + 1) ctx accounts = some b ∧
      b X.id = balanceRaw round db ctx accounts X.id
        + (match findDeferral db X.id pred.id with
          | some d => deferralBalance db d
          | none => 0)) := by
  have hne : names.isEmpty = false := by
    cases names with
    | nil => cases hn
    | cons a t => rfl
  have hcn : cumulateNames ctx names = names := by
    simp [cumulateNames, hcum]
  constructor
  · have heq : get_credit_debit round db (fuel + 1) ctx accounts names
        = some (accounts.foldl (fun v a =>
            match findDeferral db a.id pred.id with
            | some d => names.foldl (fun v n' =>
                upd v n' a.id (v n' a.id + deferralField d n')) v
            | none => v) (creditDebitRaw round db ctx accounts names)) := by
      simp only [get_credit_debit]
      rw [hcn, hne]
      rw [if_neg (show ¬(false = true) by simp)]
      simp only [cumulateF, hy, hpred]
      rw [if_pos hclosed]
    refine ⟨_, heq, ?_⟩
    rw [snapshot_fold_eval db pred.id accounts names
      (creditDebitRaw round db ctx accounts names) deferralField X n
      hnda hndn hX hn]
  · have heqb : get_balance round db (fuel + 1) ctx accounts
        = some ((accounts.foldl (fun v a =>
            match findDeferral db a.id pred.id with
            | some d => [()].foldl (fun v n' =>
                upd v n' a.id (v n' a.id + deferralBalance db d)) v
            | none => v) (fun _ => balanceRaw round db ctx accounts)) ()) := by
      simp only [get_balance]
      simp only [cumulateF, hy, hpred]
      rw [if_pos hclosed]
      rfl
    refine ⟨_, heqb, ?_⟩
    rw [snapshot_fold_eval db pred.id accounts [()]
      (fun _ => balanceRaw round db ctx accounts)
      (fun d _ => deferralBalance db d) X () hnda (List.nodup_singleton ())
      hX (List.mem_singleton.mpr rfl)]

/-- Witness for C1 on the concrete example: fiscal year 1 is closed with a
deferral of debit 5 for the account, fiscal year 2 holds a posted debit of
7, and the cumulated figures are their sums. -/
theorem spec_C1_witness :
    (∃ r, get_credit_debit exRound exDb 1 exCtx [exAcc]
        [CDName.debit, CDName.credit] = some r ∧
      r CDName.debit exAcc.id = creditDebitRaw exRound exDb exCtx [exAcc]
          [CDName.debit, CDName.credit] CDName.debit exAcc.id
        + (match findDeferral exDb exAcc.id exFY1.id with
          | some d => deferralField d CDName.debit
          | none => 0))
    ∧ (∃ b, get_balance exRound exDb 1 exCtx [exAcc] = some b ∧
      b exAcc.id = balanceRaw exRound exDb exCtx [exAcc] exAcc.id
        + (match findDeferral exDb exAcc.id exFY1.id with
          | some d => deferralBalance exDb d
          | none => 0)) :=
  spec_C1 exRound exDb exCtx [exAcc] [CDName.debit, CDName.credit] exAcc
    CDName.debit 0 exFY2 exFY1 (by decide) (by decide) (by decide) (by decide)
    (by decide) (by decide) (by decide) (by decide)

/-- Example database restricted to the second fiscal year only, so the
window's earliest fiscal year has no predecessor. -/
def exDbNoPred : Db := { exDb with fiscalyears := [exFY2] }

/-- Counterexample for C3: on the example database the stored balance of
the account over the fiscal-year-2 window is 12 (the in-window sum 7 plus
the carried deferral balance 5 of the closed fiscal year 1), while the
claim's formula (the rounded sum of debit minus credit over the in-window
lines of the account's descendant range, rounding applied once) gives 7:
Account.get_balance always adds the prior-year carry through _cumulate, so
the claim as stated fails whenever a preceding fiscal year exists. -/
theorem spec_C3_counterexample :
    ((get_balance exRound exDb 2 exCtx [exAcc]).map (fun b => b 1)) = some 12
    ∧ exRound exAcc.currency (((exDb.lines.filter (fun l =>
        (query_get exDb exCtx).fst l
          && ((findAccount exDb l.account).map (fun c =>
            decide (exAcc.left ≤ c.left)
              && decide (c.right ≤ exAcc.right))).getD false)).map
        (fun l => l.debit - l.credit)).sum) = 7
    ∧ (12 : Int) ≠ 7 := by
  decide

/-- C3 (amended): when the window's earliest in-scope fiscal year has no
preceding fiscal year (so no carry is added), Balance of a requested
account equals the sum of debit minus credit over exactly the in-window
move lines whose account's stored (left, right) interval lies within the
requested account's interval, with the account's currency rounding applied
exactly once, to that raw sum (src/account.py:1013 get_balance).  With a
preceding fiscal year the carry of C1 is added on top, as the
counterexample shows. -/
theorem spec_C3_amended (round : Nat → Int → Int) (db : Db) (ctx : Ctx)
    (accounts : List Account) (A : Account) (fuel : Nat)
    (hnddb : (db.accounts.map (fun a => a.id)).Nodup)
    (hnda : (accounts.map (fun a => a.id)).Nodup)
    (hA : A ∈ accounts) (hAdb : A ∈ db.accounts)
    (hnopred : ∀ y, youngestFY (fyBrowse db (query_get db ctx).snd) = some y →
      precedingFY db y = none) :
    ∃ b, get_balance round db (fuel + 1) ctx accounts = some b ∧
      b A.id = round A.currency (((db.lines.filter (fun l =>
        (query_get db ctx).fst l
          && ((findAccount db l.account).map (fun c =>
            decide (A.left ≤ c.left) && decide (c.right ≤ A.right))).getD false)).map
        (fun l => l.debit - l.credit)).sum) := by
  have heq : get_balance round db (fuel + 1) ctx accounts
      = some (balanceRaw round db ctx accounts) := by
    simp only [get_balance]
    simp only [cumulateF]
    rcases hy : youngestFY (fyBrowse db (query_get db ctx).snd) with _ | y
    · rfl
    · simp only [hnopred y hy]
      rfl
  refine ⟨_, heq, ?_⟩
  simp only [balanceRaw]
  rw [balance_rounding_fold_eval round accounts _ A hnda hA]
  rw [if_pos (List.mem_map_of_mem (fun a => a.id) hA)]
  congr 1
  have h1 : db.accounts.filter (fun c => c.id == A.id) = [A] :=
    filter_key_eq (fun c => c.id) db.accounts A hnddb hAdb
  simp only [balanceSQL, h1, List.map_cons, List.map_nil, List.sum_cons,
    List.sum_nil, add_zero]
  simp only [lineQuerySum]
  rw [join_flatten db.accounts db.lines hnddb _ _ _]
  rfl

/-- Witness for the amended C3 at a concrete database with a single open
fiscal year: the balance equals the rounded in-window sum with no carry. -/
theorem spec_C3_amended_witness :
    ∃ b, get_balance exRound exDbNoPred 1 exCtx [exAcc] = some b ∧
      b exAcc.id = exRound exAcc.currency (((exDbNoPred.lines.filter (fun l =>
        (query_get exDbNoPred exCtx).fst l
          && ((findAccount exDbNoPred l.account).map (fun c =>
            decide (exAcc.left ≤ c.left)
              && decide (c.right ≤ exAcc.right))).getD false)).map
        (fun l => l.debit - l.credit)).sum) :=
  spec_C3_amended exRound exDbNoPred exCtx [exAcc] exAcc 0
    (by decide) (by decide) (by decide) (by decide)
    (fun y hy => by
      have h0 : youngestFY (fyBrowse exDbNoPred (query_get exDbNoPred exCtx).snd)
          = some exFY2 := by decide
      rw [h0] at hy
      injection hy with hy2
      subst hy2
      decide)

/-- Characterisation of the source's youngest_fiscalyear selection: the
selected fiscal year is in scope and its start date is minimal. -/
theorem youngestFY_spec (fys : List FiscalYear) (y : FiscalYear)
    (h : youngestFY fys = some y) :
    y ∈ fys ∧ ∀ f ∈ fys, y.start_date ≤ f.start_date := by
  have h' : pickBest (fun f g =>
      decide ((fun f => f.start_date) f < (fun f => f.start_date) g)) fys
      = some y := h
  exact ⟨pickBest_mem _ _ y h', pickBest_min_key (fun f => f.start_date) fys y h'⟩

/-- Characterisation of the preceding fiscal year: it is a stored fiscal
year of the same company ending strictly before the given year's start
date, with the latest end date among those. -/
theorem precedingFY_spec (db : Db) (y pred : FiscalYear)
    (h : precedingFY db y = some pred) :
    pred ∈ db.fiscalyears ∧ pred.end_date < y.start_date
      ∧ pred.company = y.company
      ∧ ∀ f ∈ db.fiscalyears, f.end_date < y.start_date →
          f.company = y.company → f.end_date ≤ pred.end_date := by
  have h' : pickBest (fun f g =>
      decide ((fun g => g.end_date) f > (fun g => g.end_date) g))
      (db.fiscalyears.filter (fun f =>
        decide (f.end_date < y.start_date) && f.company == y.company))
      = some pred := h
  have hmem' : pred ∈ db.fiscalyears.filter (fun f =>
      decide (f.end_date < y.start_date) && f.company == y.company) :=
    pickBest_mem _ _ pred h'
  have hmem := (List.mem_filter.mp hmem').1
  have hprop := (List.mem_filter.mp hmem').2
  rw [Bool.and_eq_true] at hprop
  refine ⟨hmem, of_decide_eq_true hprop.1, beq_iff_eq.mp hprop.2, ?_⟩
  intro f hf hfe hfc
  exact pickBest_max_key (fun g => g.end_date) _ pred h' f
    (List.mem_filter.mpr ⟨hf, by
      simp only [Bool.and_eq_true, decide_eq_true_eq, beq_iff_eq]
      exact ⟨hfe, hfc⟩⟩)

/-- Termination measure of the cross-fiscal-year cumulation: the number of
stored fiscal years starting strictly before the earliest in-scope fiscal
year of the context (zero when the scope is empty). -/
def fyMeasure (db : Db) (ctx : Ctx) : Nat :=
  match youngestFY (fyBrowse db (query_get db ctx).snd) with
  | none => 0
  | some y =>
    (db.fiscalyears.filter (fun f => decide (f.start_date < y.start_date))).length

/-- The measure is bounded by the number of stored fiscal years. -/
theorem fyMeasure_le (db : Db) (ctx : Ctx) :
    fyMeasure db ctx ≤ db.fiscalyears.length := by
  simp only [fyMeasure]
  rcases hy : youngestFY (fyBrowse db (query_get db ctx).snd) with _ | y
  · exact Nat.zero_le _
  · exact List.length_filter_le _ _

/-- Shifting the context to the preceding fiscal year strictly decreases
the measure: every fiscal year starting before the predecessor also starts
before the current earliest one, and the predecessor itself only counts in
the old measure. -/
theorem fyMeasure_lt (db : Db) (ctx : Ctx) (y pred : FiscalYear)
    (hwf : ∀ f ∈ db.fiscalyears, f.start_date ≤ f.end_date)
    (hndfy : (db.fiscalyears.map (fun f => f.id)).Nodup)
    (hy : youngestFY (fyBrowse db (query_get db ctx).snd) = some y)
    (hp : precedingFY db y = some pred) :
    fyMeasure db (clearedCtx ctx pred.id) < fyMeasure db ctx := by
  obtain ⟨hmem, hlt, hcomp, hmax⟩ := precedingFY_spec db y pred hp
  have hse : pred.start_date ≤ pred.end_date := hwf pred hmem
  have hps : pred.start_date < y.start_date := lt_of_le_of_lt hse hlt
  have hscope : (query_get db (clearedCtx ctx pred.id)).snd = [pred.id] := rfl
  have hfind : findFY db pred.id = some pred := findFY_eq_self db pred hndfy hmem
  have hbrowse : fyBrowse db [pred.id] = [pred] := by
    simp only [fyBrowse, List.filterMap_cons, List.filterMap_nil, hfind]
  have hy' : youngestFY (fyBrowse db (query_get db (clearedCtx ctx pred.id)).snd)
      = some pred := by
    rw [hscope, hbrowse]
    rfl
  simp only [fyMeasure, hy', hy]
  exact length_filter_strict db.fiscalyears _ _
    (fun f _ hf => decide_eq_true (lt_trans (of_decide_eq_true hf) hps))
    pred hmem (decide_eq_true hps) (decide_eq_false (lt_irrefl _))

/-- Replacing the recursive aggregation function of _cumulate by one that
agrees on every defined result preserves any defined result. -/
theorem cumulateF_mono {α : Type} [DecidableEq α] (db : Db) (ctx : Ctx)
    (fys : List FiscalYear) (accounts : List Account) (names : List α)
    (values : α → Nat → Int) (defGet : Deferral → α → Int)
    (f g : Ctx → List Account → List α → Option (α → Nat → Int))
    (hfg : ∀ c n r, f c accounts n = some r → g c accounts n = some r)
    (r : α → Nat → Int)
    (h : cumulateF db ctx fys accounts names values defGet f = some r) :
    cumulateF db ctx fys accounts names values defGet g = some r := by
  simp only [cumulateF] at h ⊢
  rcases hy : youngestFY fys with _ | y
  · simp only [hy] at h ⊢
    exact h
  · simp only [hy] at h ⊢
    rcases hp : precedingFY db y with _ | pred
    · simp only [hp] at h ⊢
      exact h
    · simp only [hp] at h ⊢
      by_cases hc : pred.state = FYState.close
      · rw [if_pos hc] at h ⊢
        exact h
      · rw [if_neg hc] at h ⊢
        rcases Option.map_eq_some'.mp h with ⟨prev, hprev, hgp⟩
        rw [hfg _ _ _ hprev]
        simp only [Option.map_some']
        rw [hgp]

/-- A defined credit/debit aggregation result is stable under one more unit
of fuel. -/
theorem get_credit_debit_mono (round : Nat → Int → Int) (db : Db)
    (accounts : List Account) :
    ∀ fuel ctx names r,
      get_credit_debit round db fuel ctx accounts names = some r →
      get_credit_debit round db (fuel + 1) ctx accounts names = some r := by
  intro fuel
  induction fuel with
  | zero => intro ctx names r h; exact Option.noConfusion h
  | succ n ih =>
    intro ctx names r h
    by_cases hce : (cumulateNames ctx names).isEmpty = true
    · have e1 : get_credit_debit round db (n + 1) ctx accounts names
          = some (creditDebitRaw round db ctx accounts names) := by
        simp only [get_credit_debit]
        rw [if_pos hce]
      have e2 : get_credit_debit round db (n + 1 + 1) ctx accounts names
          = some (creditDebitRaw round db ctx accounts names) := by
        simp only [get_credit_debit]
        rw [if_pos hce]
      rw [e1] at h
      rw [e2]
      exact h
    · have e1 : get_credit_debit round db (n + 1) ctx accounts names
          = cumulateF db ctx (fyBrowse db (query_get db ctx).snd) accounts
              (cumulateNames ctx names)
              (creditDebitRaw round db ctx accounts names) deferralField
              (fun c a m => get_credit_debit round db n c a m) := by
        simp only [get_credit_debit]
        rw [if_neg hce]
      have e2 : get_credit_debit round db (n + 1 + 1) ctx accounts names
          = cumulateF db ctx (fyBrowse db (query_get db ctx).snd) accounts
              (cumulateNames ctx names)
              (creditDebitRaw round db ctx accounts names) deferralField
              (fun c a m => get_credit_debit round db (n + 1) c a m) := by
        simp only [get_credit_debit]
        rw [if_neg hce]
      rw [e1] at h
      rw [e2]
      exact cumulateF_mono db ctx _ accounts _ _ deferralField _ _
        (fun c m r' h' => ih c m r' h') r h

/-- A defined credit/debit aggregation result is stable under any larger
fuel. -/
theorem get_credit_debit_mono_le (round : Nat → Int → Int) (db : Db)
    (accounts : List Account) (fuel fuel' : Nat) (hle : fuel ≤ fuel')
    (ctx : Ctx) (names : List CDName) (r : CDName → Nat → Int)
    (h : get_credit_debit round db fuel ctx accounts names = some r) :
    get_credit_debit round db fuel' ctx accounts names = some r := by
  induction fuel', hle using Nat.le_induction with
  | base => exact h
  | succ m hm ih => exact get_credit_debit_mono round db accounts m ctx names r ih

/-- _cumulate yields a defined result as soon as its recursive function
does on the shifted context of the recompute path. -/
theorem cumulateF_isSome {α : Type} [DecidableEq α] (db : Db) (ctx : Ctx)
    (fys : List FiscalYear) (accounts : List Account) (names : List α)
    (values : α → Nat → Int) (defGet : Deferral → α → Int)
    (f : Ctx → List Account → List α → Option (α → Nat → Int))
    (hf : ∀ y pred, youngestFY fys = some y → precedingFY db y = some pred →
      ¬ pred.state = FYState.close →
      (f (clearedCtx ctx pred.id) accounts names).isSome = true) :
    (cumulateF db ctx fys accounts names values defGet f).isSome = true := by
  simp only [cumulateF]
  rcases hy : youngestFY fys with _ | y
  · rfl
  · simp only [hy]
    rcases hp : precedingFY db y with _ | pred
    · rfl
    · simp only [hp]
      by_cases hc : pred.state = FYState.close
      · rw [if_pos hc]
        rfl
      · rw [if_neg hc]
        rcases Option.isSome_iff_exists.mp (hf y pred hy hp hc) with ⟨prev, hprev⟩
        rw [hprev]
        rfl

/-- The credit/debit aggregation is defined whenever the fuel exceeds the
measure: each recursive step of the recompute path strictly decreases the
measure, so the recursion bottoms out before the fuel does. -/
theorem get_credit_debit_isSome (round : Nat → Int → Int) (db : Db)
    (accounts : List Account)
    (hwf : ∀ f ∈ db.fiscalyears, f.start_date ≤ f.end_date)
    (hndfy : (db.fiscalyears.map (fun f => f.id)).Nodup) :
    ∀ fuel ctx names, fyMeasure db ctx < fuel →
      (get_credit_debit round db fuel ctx accounts names).isSome = true := by
  intro fuel
  induction fuel with
  | zero => intro ctx names hlt; exact absurd hlt (Nat.not_lt_zero _)
  | succ n ih =>
    intro ctx names hlt
    by_cases hce : (cumulateNames ctx names).isEmpty = true
    · have e1 : get_credit_debit round db (n + 1) ctx accounts names
          = some (creditDebitRaw round db ctx accounts names) := by
        simp only [get_credit_debit]
        rw [if_pos hce]
      rw [e1]
      rfl
    · have e1 : get_credit_debit round db (n + 1) ctx accounts names
          = cumulateF db ctx (fyBrowse db (query_get db ctx).snd) accounts
              (cumulateNames ctx names)
              (creditDebitRaw round db ctx accounts names) deferralField
              (fun c a m => get_credit_debit round db n c a m) := by
        simp only [get_credit_debit]
        rw [if_neg hce]
      rw [e1]
      apply cumulateF_isSome
      intro y pred hy hp hnc
      exact ih (clearedCtx ctx pred.id) (cumulateNames ctx names)
        (Nat.lt_of_lt_of_le (fyMeasure_lt db ctx y pred hwf hndfy hy hp)
          (Nat.lt_succ_iff.mp hlt))

/-- C2: in a cumulated aggregation the earliest in-scope fiscal year y is
minimal by start date, the preceding fiscal year is the stored one of the
same company with the latest end date strictly before y's start date; when
that predecessor is not closed, get_credit_debit re-invokes itself under
the context with periods, date, from_date and to_date cleared and
fiscalyear set to the predecessor and adds its result to the raw figures;
and the recursion terminates: one fuel unit per stored fiscal year plus
one suffices, and any larger fuel yields the same defined result
(src/account.py:1122 Account._cumulate). -/
theorem spec_C2 (round : Nat → Int → Int) (db : Db) (ctx : Ctx)
    (accounts : List Account) (names : List CDName) (y pred : FiscalYear)
    (hwf : ∀ f ∈ db.fiscalyears, f.start_date ≤ f.end_date)
    (hndfy : (db.fiscalyears.map (fun f => f.id)).Nodup)
    (hy : youngestFY (fyBrowse db (query_get db ctx).snd) = some y)
    (hpred : precedingFY db y = some pred) :
    (y ∈ fyBrowse db (query_get db ctx).snd
      ∧ ∀ f ∈ fyBrowse db (query_get db ctx).snd, y.start_date ≤ f.start_date)
    ∧ (pred ∈ db.fiscalyears ∧ pred.end_date < y.start_date
      ∧ pred.company = y.company
      ∧ ∀ f ∈ db.fiscalyears, f.end_date < y.start_date →
          f.company = y.company → f.end_date ≤ pred.end_date)
    ∧ (ctx.cumulate = true → names ≠ [] → ¬ pred.state = FYState.close →
      ∀ fuel, get_credit_debit round db (fuel + 1) ctx accounts names
        = (get_credit_debit round db fuel (clearedCtx ctx pred.id) accounts
            names).map (fun prev => names.foldl (fun v n =>
              accounts.foldl (fun v a => upd v n a.id (v n a.id + prev n a.id)) v)
            (creditDebitRaw round db ctx accounts names)))
    ∧ (∀ fuel, db.fiscalyears.length + 1 ≤ fuel →
      (get_credit_debit round db fuel ctx accounts names).isSome = true
      ∧ get_credit_debit round db fuel ctx accounts names
        = get_credit_debit round db (db.fiscalyears.length + 1) ctx accounts
            names) := by
  refine ⟨youngestFY_spec _ y hy, precedingFY_spec db y pred hpred, ?_, ?_⟩
  · intro hcum hne hnclosed fuel
    have hcn : cumulateNames ctx names = names := by
      simp [cumulateNames, hcum]
    have hne' : names.isEmpty = false := by
      cases names with
      | nil => exact absurd rfl hne
      | cons a t => rfl
    simp only [get_credit_debit]
    rw [hcn, hne']
    rw [if_neg (show ¬(false = true) by simp)]
    simp only [cumulateF, hy, hpred]
    rw [if_neg hnclosed]
  · intro fuel hfuel
    have hm1 : fyMeasure db ctx < db.fiscalyears.length + 1 :=
      Nat.lt_succ_of_le (fyMeasure_le db ctx)
    have hmf : fyMeasure db ctx < fuel := Nat.lt_of_lt_of_le hm1 hfuel
    refine ⟨get_credit_debit_isSome round db accounts hwf hndfy fuel ctx names
      hmf, ?_⟩
    have h1 := get_credit_debit_isSome round db accounts hwf hndfy
      (db.fiscalyears.length + 1) ctx names hm1
    rcases Option.isSome_iff_exists.mp h1 with ⟨r, hr⟩
    rw [hr]
    exact get_credit_debit_mono_le round db accounts (db.fiscalyears.length + 1)
      fuel hfuel ctx names r hr

/-- Variant of the first fiscal year left open, so cumulation takes the
recompute path instead of the deferral snapshot. -/
def exFY1open : FiscalYear := { exFY1 with state := FYState.open' }

/-- Example database whose first fiscal year is open. -/
def exDbOpen : Db := { exDb with fiscalyears := [exFY1open, exFY2] }

/-- Witness for C2 on the concrete example with both fiscal years open:
fiscal year 1 precedes fiscal year 2, the recompute recursion fires, and
three units of fuel settle the result. -/
theorem spec_C2_witness :
    (exFY2 ∈ fyBrowse exDbOpen (query_get exDbOpen exCtx).snd
      ∧ ∀ f ∈ fyBrowse exDbOpen (query_get exDbOpen exCtx).snd,
        exFY2.start_date ≤ f.start_date)
    ∧ (exFY1open ∈ exDbOpen.fiscalyears
      ∧ exFY1open.end_date < exFY2.start_date
      ∧ exFY1open.company = exFY2.company
      ∧ ∀ f ∈ exDbOpen.fiscalyears, f.end_date < exFY2.start_date →
          f.company = exFY2.company → f.end_date ≤ exFY1open.end_date)
    ∧ (exCtx.cumulate = true → [CDName.debit] ≠ ([] : List CDName) →
      ¬ exFY1open.state = FYState.close →
      ∀ fuel, get_credit_debit exRound exDbOpen (fuel + 1) exCtx [exAcc]
          [CDName.debit]
        = (get_credit_debit exRound exDbOpen fuel (clearedCtx exCtx exFY1open.id)
            [exAcc] [CDName.debit]).map (fun prev =>
              [CDName.debit].foldl (fun v n =>
                [exAcc].foldl (fun v a =>
                  upd v n a.id (v n a.id + prev n a.id)) v)
              (creditDebitRaw exRound exDbOpen exCtx [exAcc] [CDName.debit])))
    ∧ (∀ fuel, exDbOpen.fiscalyears.length + 1 ≤ fuel →
      (get_credit_debit exRound exDbOpen fuel exCtx [exAcc]
          [CDName.debit]).isSome = true
      ∧ get_credit_debit exRound exDbOpen fuel exCtx [exAcc] [CDName.debit]
        = get_credit_debit exRound exDbOpen (exDbOpen.fiscalyears.length + 1)
            exCtx [exAcc] [CDName.debit]) :=
  spec_C2 exRound exDbOpen exCtx [exAcc] [CDName.debit] exFY2 exFY1open
    (by decide) (by decide) (by decide) (by decide)
